import Mathlib

/-!
Shallow embedding of the CALEFACCION data-collection scripts
(`scripts/fetch_aemet_9091R.py`, `scripts/update_archive.py` and the
workflow variant `.github/workflows/scripts/fetch_aemet_9091R.py`).

Python strings are embedded as lists of Unicode code points (`PyStr`),
which makes Python's code-point-wise string comparison the lexicographic
order on `List ℕ`.  Python `datetime` values are embedded as civil-field
records (`DT`); Python `float` values are embedded as exact rationals,
with the decimal fragment of `float(...)` and of `"%.1f"` formatting
modelled over ℚ.
-/

namespace Aemet

/-- A Python string, as its list of Unicode code points. -/
abbrev PyStr := List ℕ

/-- Embed a Lean string literal as a `PyStr`. -/
def str (s : String) : PyStr := s.toList.map Char.toNat

/-- Python `str.strip` / regex `\s` whitespace on the code points that can
occur in this data: space, tab, LF, VT, FF, CR and NBSP. -/
def isPySpace (c : ℕ) : Bool :=
  c = 32 || c = 9 || c = 10 || c = 11 || c = 12 || c = 13 || c = 160

/-- Python `str.lower` restricted to the Latin-1 range: ASCII upper case and
the accented capitals À–Þ (except ×) map down by 32. -/
def lowerChar (c : ℕ) : ℕ :=
  if 65 ≤ c ∧ c ≤ 90 then c + 32
  else if 192 ≤ c ∧ c ≤ 222 ∧ c ≠ 215 then c + 32
  else c

/-- Python `str.lower` over a whole string. -/
def lower (s : PyStr) : PyStr := s.map lowerChar

/-- Python `str.strip()`: drop whitespace from both ends. -/
def strip (s : PyStr) : PyStr :=
  ((s.dropWhile isPySpace).reverse.dropWhile isPySpace).reverse

/-- `_clean_text` (fetch script, lines 26-27):
`(s or "").strip().replace("\xa0", " ")`. -/
def _clean_text (s : PyStr) : PyStr :=
  (strip s).map (fun c => if c = 160 then 32 else c)

/-- ASCII decimal digit test. -/
def isDigit (c : ℕ) : Bool := 48 ≤ c && c ≤ 57

/-- Value of a string of ASCII digits, most significant first. -/
def digitsToNat (l : PyStr) : ℕ := l.foldl (fun a c => a * 10 + (c - 48)) 0

/-- Unsigned part of Python `float(...)` on a decimal literal:
digits, optionally followed by a point and further digits (either side of
the point may be empty, but not both). -/
def pyFloatUnsigned (s : PyStr) : Option ℚ :=
  let ip := s.takeWhile isDigit
  let rest := s.dropWhile isDigit
  match rest with
  | [] => if ip = [] then none else some (digitsToNat ip)
  | 46 :: fp =>
      if fp.all isDigit ∧ (ip ≠ [] ∨ fp ≠ []) then
        some ((digitsToNat ip : ℚ) + (digitsToNat fp : ℚ) / (10 : ℚ) ^ fp.length)
      else none
  | _ => none

/-- The decimal fragment of Python `float(str)`: optional surrounding
whitespace, an optional sign, then a fixed-point decimal literal.  The
exponent, infinity and nan forms never occur in the AEMET cells and are
not modelled. -/
def pyFloat (s0 : PyStr) : Option ℚ :=
  match strip s0 with
  | [] => none
  | c :: rest =>
      if c = 43 then pyFloatUnsigned rest
      else if c = 45 then (pyFloatUnsigned rest).map (fun q => -q)
      else pyFloatUnsigned (c :: rest)

/-- `_parse_float_celsius` (fetch script, lines 29-37): clean, reject the
no-data sentinels, replace the decimal comma, convert. -/
def _parse_float_celsius (s0 : PyStr) : Option ℚ :=
  let s := _clean_text s0
  if s = [] ∨ s = str "-" ∨ s = str "ND" then none
  else pyFloat (s.map (fun c => if c = 44 then 46 else c))

/-- The punctuation class of the substitution regex in `_is_temp_header`
(period, parentheses, square brackets, comma, percent, slash, hyphen). -/
def punctChars : PyStr := str ".()[],%/-"

/-- One-pass worker for whitespace-run collapsing: `prevSpace` records
whether the previous character was whitespace (in which case further
whitespace is absorbed into the already-emitted space). -/
def collapseSpacesAux (prevSpace : Bool) : PyStr → PyStr
  | [] => []
  | c :: rest =>
      if isPySpace c then
        if prevSpace then collapseSpacesAux true rest
        else 32 :: collapseSpacesAux true rest
      else c :: collapseSpacesAux false rest

/-- Replace each maximal whitespace run by a single space
(`re.sub(r"\s+", " ", ·)`). -/
def collapseSpaces (s : PyStr) : PyStr := collapseSpacesAux false s

/-- `isPre pat s`: `pat` is a prefix of `s` (Python `str.startswith`). -/
def isPre : PyStr → PyStr → Bool
  | [], _ => true
  | _ :: _, [] => false
  | a :: pat, b :: s => a = b && isPre pat s

/-- `hasSub pat s`: `pat` occurs as a contiguous substring of `s`
(Python `pat in s`). -/
def hasSub (pat : PyStr) : PyStr → Bool
  | [] => decide (pat = [])
  | c :: rest => isPre pat (c :: rest) || hasSub pat rest

/-- The normalised header of `_is_temp_header` (lines 46-50): clean, lower,
unify `º` to `°`, turn the common punctuation into spaces, collapse
whitespace and strip.  (Replacing each punctuation character by one space
and then collapsing runs is exactly the effect of the source's
`re.sub("[punct]+", " ", ·)` followed by `re.sub(r"\s+", " ", ·)`.) -/
def normHeader (h : PyStr) : PyStr :=
  let raw := lower (_clean_text h)
  let n0 := raw.map (fun c => if c = 186 then 176 else c)
  let n1 := n0.map (fun c => if punctChars.contains c then 32 else c)
  strip (collapseSpaces n1)

/-- Python regex word character (`\w`) over the Latin-1 range: ASCII
alphanumerics, underscore, and the Latin-1 letters ª, µ, º and À–ÿ except
× and ÷. -/
def isWordChar (c : ℕ) : Bool :=
  (48 ≤ c && c ≤ 57) || (65 ≤ c && c ≤ 90) || (97 ≤ c && c ≤ 122) || c = 95 ||
  c = 170 || c = 181 || c = 186 || (192 ≤ c && c ≤ 255 && c ≠ 215 && c ≠ 247)

/-- Scan for `re.search(r"\bc\b", ·)`: a letter `c` with a word boundary on
both sides.  `prevIsWord` records whether the previous character was a word
character. -/
def hasStandaloneCAux (prevIsWord : Bool) : PyStr → Bool
  | [] => false
  | c :: rest =>
      (c = 99 && !prevIsWord &&
        !(match rest with | [] => false | d :: _ => isWordChar d))
      || hasStandaloneCAux (isWordChar c) rest

/-- `re.search(r"\bc\b", norm) is not None`. -/
def hasStandaloneC (s : PyStr) : Bool := hasStandaloneCAux false s

/-- Line 52: the normalised header contains `temp` or `temperatura`. -/
def hasTempWord (norm : PyStr) : Bool :=
  hasSub (str "temp") norm || hasSub (str "temperatura") norm

/-- Line 53: the header references the Celsius unit: literal `°c` or `ºc`
in the cleaned lower-cased header, or a standalone `c` token in the
normalised header. -/
def hasCUnit (h : PyStr) : Bool :=
  let raw := lower (_clean_text h)
  hasSub (str "°c") raw || hasSub (str "ºc") raw || hasStandaloneC (normHeader h)

/-- `_is_temp_header` (fetch script, lines 39-54). -/
def _is_temp_header (h : PyStr) : Bool :=
  hasTempWord (normHeader h) && hasCUnit h

/-! ## Civil date-times and the fixed local timezone -/

/-- A Python `datetime` as its civil fields (no sub-second component is ever
produced by these scripts). -/
structure DT where
  year : ℕ
  month : ℕ
  day : ℕ
  hour : ℕ
  minute : ℕ
  second : ℕ
deriving DecidableEq, Repr

/-- Gregorian leap year. -/
def isLeap (y : ℕ) : Bool := (y % 4 = 0 && y % 100 ≠ 0) || y % 400 = 0

/-- Length of a month. -/
def daysInMonth (y m : ℕ) : ℕ :=
  if m = 2 then (if isLeap y then 29 else 28)
  else if m = 4 ∨ m = 6 ∨ m = 9 ∨ m = 11 then 30 else 31

/-- Field bounds under which `DT.key` is an order embedding: each field
below its radix. -/
def DT.inRange (d : DT) : Bool :=
  d.month ≤ 12 && d.day ≤ 31 && d.hour ≤ 23 && d.minute ≤ 59 && d.second ≤ 59

/-- A fully valid `datetime` (the constructor's own validation: year 1-9999,
real calendar day, clock fields in range). -/
def DT.validB (d : DT) : Bool :=
  1 ≤ d.year && d.year ≤ 9999 && 1 ≤ d.month && d.month ≤ 12 &&
  1 ≤ d.day && d.day ≤ daysInMonth d.year d.month &&
  d.hour ≤ 23 && d.minute ≤ 59 && d.second ≤ 59

/-- Comparison key: the mixed-radix reading of the civil fields.  On
`inRange` values it orders exactly as Python orders (UTC) `datetime`
values, i.e. field-lexicographically = chronologically. -/
def DT.key (d : DT) : ℕ :=
  ((((d.year * 13 + d.month) * 32 + d.day) * 24 + d.hour) * 60 + d.minute) * 60 + d.second

/-- Zeller's congruence; `0` is Saturday, `1` Sunday, ... `6` Friday. -/
def dayOfWeek (y m d : ℕ) : ℕ :=
  let Y := if m ≤ 2 then y - 1 else y
  let M := if m ≤ 2 then m + 12 else m
  let K := Y % 100
  let J := Y / 100
  (d + 13 * (M + 1) / 5 + K + K / 4 + J / 4 + 5 * J) % 7

/-- Day of the last Sunday of a 31-day month. -/
def lastSunday (y m : ℕ) : ℕ := 31 - (dayOfWeek y m 31 + 6) % 7

/-- `ZoneInfo("Europe/Madrid")`, local side (EU rules, post-1996 tzdata):
CEST (UTC+2) from the last Sunday of March 02:00 local wall time up to the
last Sunday of October 03:00 local wall time, else CET (UTC+1); ambiguous
wall times resolve as Python's `fold=0` does, to the earlier (CEST)
reading. -/
def madridDstLocal (d : DT) : Bool :=
  let t := d.hour * 60 + d.minute
  let a := lastSunday d.year 3
  let b := lastSunday d.year 10
  (decide (3 < d.month) ||
    (decide (d.month = 3) && (decide (a < d.day) || (decide (d.day = a) && decide (120 ≤ t))))) &&
  (decide (d.month < 10) ||
    (decide (d.month = 10) && (decide (d.day < b) || (decide (d.day = b) && decide (t < 180)))))

/-- Local-side UTC offset of Europe/Madrid, in minutes. -/
def madridOffsetLocal (d : DT) : ℕ := if madridDstLocal d then 120 else 60

/-- The previous calendar day (clock fields kept). -/
def DT.prevDay (d : DT) : DT :=
  if 1 < d.day then { d with day := d.day - 1 }
  else if 1 < d.month then { d with month := d.month - 1, day := daysInMonth d.year (d.month - 1) }
  else { d with year := d.year - 1, month := 12, day := 31 }

/-- The next calendar day (clock fields kept). -/
def DT.nextDay (d : DT) : DT :=
  if d.day < daysInMonth d.year d.month then { d with day := d.day + 1 }
  else if d.month < 12 then { d with month := d.month + 1, day := 1 }
  else { d with year := d.year + 1, month := 1, day := 1 }

/-- `dt_local.astimezone(timezone.utc)` for a Europe/Madrid-aware local
time: subtract the local offset, borrowing at most one day. -/
def astimezoneUTC (d : DT) : DT :=
  let off := madridOffsetLocal d
  let t := d.hour * 60 + d.minute
  if off ≤ t then { d with hour := (t - off) / 60, minute := (t - off) % 60 }
  else
    let p := d.prevDay
    { p with hour := (t + 1440 - off) / 60, minute := (t + 1440 - off) % 60 }

/-- The EU DST window as seen from UTC: last Sunday of March 01:00 UTC up
to last Sunday of October 01:00 UTC (this direction has no ambiguity). -/
def madridDstUTC (u : DT) : Bool :=
  let t := u.hour * 60 + u.minute
  let a := lastSunday u.year 3
  let b := lastSunday u.year 10
  (decide (3 < u.month) ||
    (decide (u.month = 3) && (decide (a < u.day) || (decide (u.day = a) && decide (60 ≤ t))))) &&
  (decide (u.month < 10) ||
    (decide (u.month = 10) && (decide (u.day < b) || (decide (u.day = b) && decide (t < 60)))))

/-- `ts_utc.astimezone(TZ_LOCAL)`: add the offset determined by the UTC
instant, carrying at most one day. -/
def astimezoneMadrid (u : DT) : DT :=
  let off := if madridDstUTC u then 120 else 60
  let t := u.hour * 60 + u.minute + off
  if t < 1440 then { u with hour := t / 60, minute := t % 60 }
  else
    let p := u.nextDay
    { p with hour := (t - 1440) / 60, minute := (t - 1440) % 60 }

/-! ## strptime and the row pipeline -/

/-- Split a leading run of ASCII digits from the rest. -/
def splitDigits (s : PyStr) : PyStr × PyStr := (s.takeWhile isDigit, s.dropWhile isDigit)

/-- The `datetime` constructor's range validation (year 1-9999, real
calendar day, clock fields in range); seconds are zero for this format. -/
def mkDT (y m d h mi : ℕ) : Option DT :=
  if 1 ≤ y ∧ y ≤ 9999 ∧ 1 ≤ m ∧ m ≤ 12 ∧ 1 ≤ d ∧ d ≤ daysInMonth y m ∧ h ≤ 23 ∧ mi ≤ 59 then
    some ⟨y, m, d, h, mi, 0⟩
  else none

/-- `datetime.strptime(s, "%d/%m/%Y %H:%M")`: one or two digits for day,
month, hour and minute, exactly four for the year, at least one whitespace
character between date and time, nothing left over, and the constructor's
range validation (which includes the real month length). -/
def strptimeDMYHM (s : PyStr) : Option DT :=
  let (ds, r1) := splitDigits s
  match r1 with
  | 47 :: r2 =>
      let (ms, r3) := splitDigits r2
      match r3 with
      | 47 :: r4 =>
          let (ys, r5) := splitDigits r4
          let sp := r5.takeWhile isPySpace
          let r6 := r5.dropWhile isPySpace
          let (hs, r7) := splitDigits r6
          match r7 with
          | 58 :: r8 =>
              let (mis, r9) := splitDigits r8
              if r9 = [] ∧ sp ≠ [] ∧
                  1 ≤ ds.length ∧ ds.length ≤ 2 ∧ 1 ≤ ms.length ∧ ms.length ≤ 2 ∧
                  ys.length = 4 ∧ 1 ≤ hs.length ∧ hs.length ≤ 2 ∧
                  1 ≤ mis.length ∧ mis.length ≤ 2 then
                mkDT (digitsToNat ys) (digitsToNat ms) (digitsToNat ds)
                  (digitsToNat hs) (digitsToNat mis)
              else none
          | _ => none
      | _ => none
  | _ => none

/-- `fecha_txt.replace(" h", "")` (fetch script, line 102): delete every
occurrence of the two-character substring `" h"`. -/
def replaceDrop : PyStr → PyStr
  | 32 :: 104 :: rest => replaceDrop rest
  | c :: rest => c :: replaceDrop rest
  | [] => []

/-- One `<tr>` of the body (fetch script, lines 90-113): skip short rows,
clean both cells, parse the date (with the `" h"` fallback), convert to
UTC, parse the temperature; any failure drops the row. -/
def parseRow (idxF idxT : ℕ) (tds : List PyStr) : Option (DT × ℚ) :=
  if tds.length ≤ max idxF idxT then none
  else
    let fecha := _clean_text (tds.getD idxF [])
    let temp := _clean_text (tds.getD idxT [])
    match (strptimeDMYHM fecha).orElse (fun _ => strptimeDMYHM (replaceDrop fecha)) with
    | none => none
    | some dtLocal =>
        match _parse_float_celsius temp with
        | none => none
        | some v => some (astimezoneUTC dtLocal, v)

/-- First header whose cleaned lower-cased text contains both `fecha` and
`hora` (fetch script, lines 76-79). -/
def findIdxFecha (headers : List PyStr) : Option ℕ :=
  headers.findIdx? (fun h =>
    let hlow := lower (_clean_text h)
    hasSub (str "fecha") hlow && hasSub (str "hora") hlow)

/-- First header accepted by `_is_temp_header` (fetch script, lines 80-81). -/
def findIdxTemp (headers : List PyStr) : Option ℕ :=
  headers.findIdx? _is_temp_header

/-! ## Python dicts as insertion-ordered association lists -/

/-- `m[k] = v` on an insertion-ordered dict: replace in place, else append. -/
def dictUpsert {K V : Type} [DecidableEq K] (k : K) (v : V) : List (K × V) → List (K × V)
  | [] => [(k, v)]
  | (k', v') :: rest => if k' = k then (k, v) :: rest else (k', v') :: dictUpsert k v rest

/-- Build a dict from a list of pairs, later pairs overwriting earlier. -/
def pyDict {K V : Type} [DecidableEq K] (l : List (K × V)) : List (K × V) :=
  l.foldl (fun m kv => dictUpsert kv.1 kv.2 m) []

/-- `m[k]` with a default (lookups in these scripts never miss). -/
def dictGetD {K V : Type} [DecidableEq K] (k : K) : List (K × V) → V → V
  | [], dflt => dflt
  | (k', v) :: rest, dflt => if k' = k then v else dictGetD k rest dflt

/-! ## The HTML parser -/

/-- The table as BeautifulSoup hands it to the parser: the `<th>` texts of
a `<thead>` when one exists, and the `<td>` texts of each body row. -/
structure HtmlTable where
  thead : Option (List PyStr)
  rows : List (List PyStr)

/-- The fetched document: `none` when no `<table>` is found. -/
abbrev Html := Option HtmlTable

/-- The `RuntimeError`s of `parse_aemet_html_last24` (lines 62-86). -/
inductive ParseErr where
  | noTable
  | noThead
  | noHeaders
  | noFecha
  | noTemp
deriving DecidableEq, Repr

/-- Sort observation pairs by timestamp (`out.sort(key=lambda x: x[0])`). -/
def sortPairs (l : List (DT × ℚ)) : List (DT × ℚ) :=
  l.insertionSort (fun a b => a.1.key ≤ b.1.key)

/-- `parse_aemet_html_last24` (fetch script, lines 58-120). -/
def parse_aemet_html_last24 (html : Html) : Except ParseErr (List (DT × ℚ)) :=
  match html with
  | none => .error .noTable
  | some table =>
      match table.thead with
      | none => .error .noThead
      | some ths =>
          let headers := ths.map _clean_text
          if headers = [] then .error .noHeaders
          else
            match findIdxFecha headers, findIdxTemp headers with
            | none, _ => .error .noFecha
            | some _, none => .error .noTemp
            | some idxF, some idxT =>
                let out := table.rows.filterMap (parseRow idxF idxT)
                let uniq := pyDict (sortPairs out)
                let keys := (uniq.map Prod.fst).insertionSort (fun a b => a.key ≤ b.key)
                .ok (keys.map (fun ts => (ts, dictGetD ts uniq 0)))

/-! ## Decimal rendering and the CSV writers -/

/-- Digit-string worker with explicit fuel (`fuel > n` always suffices). -/
def natToDigitsAux : ℕ → ℕ → PyStr
  | 0, _ => []
  | fuel + 1, n =>
      if n < 10 then [48 + n] else natToDigitsAux fuel (n / 10) ++ [48 + n % 10]

/-- Decimal digit string of a natural number, no padding (`"0"` for 0). -/
def natToDigits (n : ℕ) : PyStr := natToDigitsAux (n + 1) n

/-- Two-digit zero-padded field. -/
def pad2 (n : ℕ) : PyStr := [48 + n / 10 % 10, 48 + n % 10]

/-- Four-digit zero-padded field. -/
def pad4 (n : ℕ) : PyStr := [48 + n / 1000 % 10, 48 + n / 100 % 10, 48 + n / 10 % 10, 48 + n % 10]

/-- `ts_utc.isoformat().replace("+00:00", "Z")` for a whole-second UTC
instant: `YYYY-MM-DDTHH:MM:SSZ`. -/
def isoZ (d : DT) : PyStr :=
  pad4 d.year ++ [45] ++ pad2 d.month ++ [45] ++ pad2 d.day ++ [84] ++
  pad2 d.hour ++ [58] ++ pad2 d.minute ++ [58] ++ pad2 d.second ++ [90]

/-- `f"{temp:.1f}"` over the exact-rational model: round to tenths and
print with exactly one decimal; a negative value keeps its sign even when
it rounds to zero. -/
def fmt1 (q : ℚ) : PyStr :=
  let n : ℤ := round (10 * q)
  let a := n.natAbs
  let body := natToDigits (a / 10) ++ [46, 48 + a % 10]
  if q < 0 then 45 :: body else body

/-- A value rounded to one decimal place. -/
def round1 (q : ℚ) : ℚ := (round (10 * q) : ℚ) / 10

/-- One line of the persisted CSV
(`date_local,time_local,datetime_utc,temp_c,source`). -/
structure Row where
  date_local : PyStr
  time_local : PyStr
  datetime_utc : PyStr
  temp_c : PyStr
  source : PyStr
deriving DecidableEq, Repr

/-- `write_csv` (fetch script, lines 124-140): project each observation
into the five-field row shape. -/
def write_csv (pairs : List (DT × ℚ)) : List Row :=
  pairs.map (fun p =>
    let tsLoc := astimezoneMadrid p.1
    { date_local := pad4 tsLoc.year ++ [45] ++ pad2 tsLoc.month ++ [45] ++ pad2 tsLoc.day
      time_local := pad2 tsLoc.hour ++ [58] ++ pad2 tsLoc.minute
      datetime_utc := isoZ p.1
      temp_c := fmt1 p.2
      source := str "AEMET_ult24h" })

/-- Outcome of one fetch run: the process exit code, and the rows written
to the output CSV (`none` when the file is not (re)written). -/
structure RunResult where
  exitCode : ℕ
  written : Option (List Row)
deriving DecidableEq, Repr

/-- `main` of the fetch script (lines 144-157).  Its input is the result of
`fetch_html` as already seen by the parser: a transport error, or the
document.  Any `RuntimeError` from the parser is caught by the
`except` clause, which prints the message and exits 2 without having
written anything; an empty extraction also exits 2 before writing. -/
def fetch_main (fetched : Except Unit Html) : RunResult :=
  match fetched with
  | .error _ => ⟨2, none⟩
  | .ok html =>
      match parse_aemet_html_last24 html with
      | .error _ => ⟨2, none⟩
      | .ok pairs => if pairs = [] then ⟨2, none⟩ else ⟨0, some (write_csv pairs)⟩

/-! ## The archive updater (`scripts/update_archive.py`) -/

/-- Strict-equality lexicographic order on Python strings. -/
def pyLt (a b : PyStr) : Prop := List.Lex (· < ·) a b

instance : DecidableRel pyLt :=
  fun a b => inferInstanceAs (Decidable (List.Lex (· < ·) a b))

/-- Reflexive closure of `pyLt`: the order Python's stable sort uses. -/
def pyLe (a b : PyStr) : Prop := a = b ∨ pyLt a b

instance : DecidableRel pyLe :=
  fun a b => inferInstanceAs (Decidable (a = b ∨ pyLt a b))

/-- Row order of `merged.sort(key=lambda r: r["datetime_utc"])`. -/
def rowLe (r1 r2 : Row) : Prop := pyLe r1.datetime_utc r2.datetime_utc

instance : DecidableRel rowLe :=
  fun r1 r2 => inferInstanceAs (Decidable (pyLe r1.datetime_utc r2.datetime_utc))

instance : IsAsymm PyStr pyLt :=
  ⟨fun a b h1 h2 => @IsAsymm.asymm _ (List.Lex (· < ·)) inferInstance a b h1 h2⟩

instance : IsTrans PyStr pyLt :=
  ⟨fun a b c h1 h2 => @IsTrans.trans _ (List.Lex (· < ·)) inferInstance a b c h1 h2⟩

instance : IsTrans PyStr pyLe :=
  ⟨fun a b c h1 h2 =>
    match h1, h2 with
    | Or.inl rfl, h2 => h2
    | h1, Or.inl rfl => h1
    | Or.inr h1, Or.inr h2 => Or.inr (@IsTrans.trans _ pyLt inferInstance a b c h1 h2)⟩

instance : IsTotal PyStr pyLe :=
  ⟨fun a b => by
    rcases @trichotomous _ (List.Lex (· < ·)) inferInstance a b with h | h | h
    · exact Or.inl (Or.inr h)
    · exact Or.inl (Or.inl h)
    · exact Or.inr (Or.inr h)⟩

instance : IsTrans Row rowLe :=
  ⟨fun _ _ _ h1 h2 => @IsTrans.trans _ pyLe inferInstance _ _ _ h1 h2⟩

instance : IsTotal Row rowLe :=
  ⟨fun a b => @IsTotal.total _ pyLe inferInstance a.datetime_utc b.datetime_utc⟩

instance : IsTotal DT (fun a b => a.key ≤ b.key) := ⟨fun x y => Nat.le_total x.key y.key⟩

instance : IsTrans DT (fun a b => a.key ≤ b.key) := ⟨fun _ _ _ => Nat.le_trans⟩

instance : IsTotal (DT × ℚ) (fun a b => a.1.key ≤ b.1.key) :=
  ⟨fun x y => Nat.le_total x.1.key y.1.key⟩

instance : IsTrans (DT × ℚ) (fun a b => a.1.key ≤ b.1.key) := ⟨fun _ _ _ => Nat.le_trans⟩

/-- `read_csv` (archive script, lines 7-11): a missing file reads as no
rows; a present file yields its data rows. -/
def read_csv (file : Option (List Row)) : List Row := file.getD []

/-- The merge step of the archive updater (lines 25-28): dict keyed on the
`datetime_utc` field, existing archive first, hourly rows overwriting,
then the values sorted by key. -/
def merge_rows (arch hourly : List Row) : List Row :=
  let init := pyDict (arch.map (fun r => (r.datetime_utc, r)))
  let by_key := hourly.foldl (fun m r => dictUpsert r.datetime_utc r m) init
  (by_key.map Prod.snd).insertionSort rowLe

/-- Outcome of one archive run: rows written to the archive (`none` when
the archive file is never opened), whether the empty-hourly warning was
printed, and the process exit code (this script never exits non-zero). -/
structure ArchiveResult where
  written : Option (List Row)
  warned : Bool
  exitCode : ℕ
deriving DecidableEq, Repr

/-- `main` of the archive script (lines 20-33). -/
def archive_main (hourlyFile archiveFile : Option (List Row)) : ArchiveResult :=
  let hourly := read_csv hourlyFile
  if hourly = [] then ⟨none, true, 0⟩
  else ⟨some (merge_rows (read_csv archiveFile) hourly), false, 0⟩

/-! ## The workflow collector (`.github/workflows/scripts/fetch_aemet_9091R.py`)

A second variant of the fetcher lives under `.github/workflows/scripts/`.
Its header resolution, hour alignment, numeric conversion and CSV merger
differ from the `scripts/` variant; they are translated below. -/

/-- Header normalisation of the workflow variant (line 52 of the workflow
script): `re.sub(r"\s+", " ", h.strip().lower())` — lowercase, trim, and
collapse every whitespace run to one space. -/
def norm_ws (h : PyStr) : PyStr := collapseSpaces (strip (lower h))

/-- `bad_tokens` (workflow script, line 76): substrings that disqualify a
header from being the air-temperature column (maxima, minima, and the
soil-temperature markers `suelo`/`ts`). -/
def bad_tokens : List PyStr :=
  [str "máx", str "max", str "mín", str "min", str "suelo", str "ts"]

/-- `is_temp_col` (workflow script, lines 77-82), over an
already-normalised header: the label must contain `temperatura` and no
`bad_tokens` entry.  (No Celsius-unit requirement.) -/
def is_temp_col (h : PyStr) : Bool :=
  hasSub (str "temperatura") h && !(bad_tokens.any (fun t => hasSub t h))

/-- Temperature-column resolution of the workflow variant (lines 84-95):
the first normalised header accepted by `is_temp_col`, else the
conservative fallback — the first header containing `ºc` and no
`bad_tokens` entry. -/
def find_temp_idx (headers : List PyStr) : Option ℕ :=
  let norm := headers.map norm_ws
  match norm.findIdx? is_temp_col with
  | some i => some i
  | none =>
      norm.findIdx? (fun h => hasSub (str "ºc") h && !(bad_tokens.any (fun t => hasSub t h)))

/-- `align_hour_utc` (workflow script, lines 168-170): zero the minute and
second components (`DT` carries whole seconds, so `microsecond=0` is
implicit) and convert the Europe/Madrid local instant to UTC. -/
def align_hour_utc (dLocal : DT) : DT :=
  astimezoneUTC { dLocal with minute := 0, second := 0 }

/-- `to_float` (workflow script, lines 172-174): replace the decimal comma,
trim, then attempt `float(...)`; any exception yields `None`.  (`float` is
embedded by `pyFloat`, the fixed-point decimal fragment of the builtin;
exponent, infinity and nan literals never occur in the AEMET cells.  A
missing cell enters as the empty string, on which conversion fails just as
`float(str(None))` does.) -/
def to_float (s : PyStr) : Option ℚ :=
  pyFloat (strip (s.map (fun c => if c = 44 then 46 else c)))

/-- The `datetime` constructor's range validation, with an explicit seconds
field (used by the ISO parser). -/
def mkDTsec (y m d h mi se : ℕ) : Option DT :=
  if 1 ≤ y ∧ y ≤ 9999 ∧ 1 ≤ m ∧ m ≤ 12 ∧ 1 ≤ d ∧ d ≤ daysInMonth y m ∧
      h ≤ 23 ∧ mi ≤ 59 ∧ se ≤ 59 then
    some ⟨y, m, d, h, mi, se⟩
  else none

/-- Python `datetime.fromisoformat` composed with the script's
`.replace("Z", "+00:00")`, on the exact shape this pipeline writes:
`YYYY-MM-DDTHH:MM:SSZ`, with the constructor's validation.  (The builtin
accepts further shapes; only the canonical one occurs here.) -/
def fromisoformatZ (s : PyStr) : Option DT :=
  if s.length = 20 ∧ s.getD 4 0 = 45 ∧ s.getD 7 0 = 45 ∧ s.getD 10 0 = 84 ∧
      s.getD 13 0 = 58 ∧ s.getD 16 0 = 58 ∧ s.getD 19 0 = 90 ∧
      ([s.getD 0 0, s.getD 1 0, s.getD 2 0, s.getD 3 0, s.getD 5 0, s.getD 6 0,
        s.getD 8 0, s.getD 9 0, s.getD 11 0, s.getD 12 0, s.getD 14 0, s.getD 15 0,
        s.getD 17 0, s.getD 18 0].all isDigit) = true then
    mkDTsec (digitsToNat [s.getD 0 0, s.getD 1 0, s.getD 2 0, s.getD 3 0])
      (digitsToNat [s.getD 5 0, s.getD 6 0]) (digitsToNat [s.getD 8 0, s.getD 9 0])
      (digitsToNat [s.getD 11 0, s.getD 12 0]) (digitsToNat [s.getD 14 0, s.getD 15 0])
      (digitsToNat [s.getD 17 0, s.getD 18 0])
  else none

/-- Reading the existing CSV back (workflow script, lines 178-184): each
row's `datetime_utc` through `fromisoformat` and its `temp_c` through
`float`.  A row that fails either conversion raises an uncaught exception,
aborting the whole run — modelled as `none`. -/
def read_old : List Row → Option (List (DT × ℚ))
  | [] => some []
  | r :: rs =>
      match fromisoformatZ r.datetime_utc, pyFloat r.temp_c with
      | some dt, some v => (read_old rs).map (fun l => (dt, v) :: l)
      | _, _ => none

/-- The merge mapping (workflow script, lines 186-188): a dict keyed on
`dt.isoformat().replace("+00:00", "Z")` — that is, on the canonical ISO
string, not on the instant — populated from the old pairs, then
overwritten entry-by-entry by the new rows under the same key. -/
def series_dict (old new_rows : List (DT × ℚ)) : List (PyStr × ℚ) :=
  new_rows.foldl (fun m p => dictUpsert (isoZ p.1) p.2 m)
    (old.foldl (fun m p => dictUpsert (isoZ p.1) p.2 m) [])

/-- Total wrapper for re-parsing a dict key (the `fromisoformat` at line
189 always succeeds on keys this pipeline builds). -/
def parseD (k : PyStr) : DT := (fromisoformatZ k).getD ⟨1, 1, 1, 0, 0, 0⟩

/-- Re-parsing the dict keys for ordering (workflow script, line 189): a
key that fails `fromisoformat` raises inside the `sorted(...)` generator,
aborting the run. -/
def read_keys : List (PyStr × ℚ) → Option (List (DT × ℚ))
  | [] => some []
  | (k, v) :: rest =>
      match fromisoformatZ k with
      | some dt => (read_keys rest).map (fun l => (dt, v) :: l)
      | none => none

/-- `write_merged` (workflow script, lines 176-201): read the existing
file back (an absent file contributes no rows; a malformed row aborts),
build the string-keyed mapping, re-parse its keys, sort ascending by
instant (comparing aware UTC datetimes is comparing `DT.key`), and write
the five-field rows — the same row shape `write_csv` produces.  `none`
models the run aborting on an uncaught exception, nothing written. -/
def write_merged (existing : Option (List Row)) (new_rows : List (DT × ℚ)) :
    Option (List Row) :=
  match (match existing with | none => some [] | some rows => read_old rows) with
  | none => none
  | some old =>
      match read_keys (series_dict old new_rows) with
      | none => none
      | some pairs =>
          some (write_csv (pairs.insertionSort (fun a b => a.1.key ≤ b.1.key)))

/-! ## Dict lemmas -/

section DictLemmas

variable {K V : Type} [DecidableEq K]

theorem dictUpsert_cons_self (k : K) (v v0 : V) (rest : List (K × V)) :
    dictUpsert k v ((k, v0) :: rest) = (k, v) :: rest := by
  rw [dictUpsert, if_pos rfl]

theorem dictUpsert_cons_ne (k k0 : K) (v v0 : V) (rest : List (K × V)) (h : k0 ≠ k) :
    dictUpsert k v ((k0, v0) :: rest) = (k0, v0) :: dictUpsert k v rest := by
  rw [dictUpsert, if_neg h]

theorem mem_keys_dictUpsert (k : K) (v : V) (m : List (K × V)) (k' : K) :
    k' ∈ (dictUpsert k v m).map Prod.fst ↔ k' = k ∨ k' ∈ m.map Prod.fst := by
  induction m with
  | nil => simp [dictUpsert]
  | cons kv rest ih =>
      obtain ⟨k0, v0⟩ := kv
      by_cases h : k0 = k
      · subst h
        simp only [dictUpsert_cons_self, List.map_cons, List.mem_cons]
        tauto
      · rw [dictUpsert_cons_ne _ _ _ _ _ h]
        simp only [List.map_cons, List.mem_cons, ih]
        tauto

theorem keys_nodup_dictUpsert (k : K) (v : V) (m : List (K × V))
    (hm : (m.map Prod.fst).Nodup) : ((dictUpsert k v m).map Prod.fst).Nodup := by
  induction m with
  | nil => simp [dictUpsert]
  | cons kv rest ih =>
      obtain ⟨k0, v0⟩ := kv
      simp only [List.map_cons, List.nodup_cons] at hm
      by_cases h : k0 = k
      · subst h
        simp only [dictUpsert_cons_self, List.map_cons, List.nodup_cons]
        exact hm
      · rw [dictUpsert_cons_ne _ _ _ _ _ h]
        simp only [List.map_cons, List.nodup_cons]
        refine ⟨fun hc => ?_, ih hm.2⟩
        rw [mem_keys_dictUpsert] at hc
        rcases hc with rfl | hc
        · exact h rfl
        · exact hm.1 hc

theorem foldl_upsert_keys_nodup (l : List (K × V)) (m : List (K × V))
    (hm : (m.map Prod.fst).Nodup) :
    ((l.foldl (fun m kv => dictUpsert kv.1 kv.2 m) m).map Prod.fst).Nodup := by
  induction l generalizing m with
  | nil => exact hm
  | cons kv rest ih =>
      exact ih _ (keys_nodup_dictUpsert _ _ _ hm)

theorem pyDict_keys_nodup (l : List (K × V)) : ((pyDict l).map Prod.fst).Nodup :=
  foldl_upsert_keys_nodup l [] (by simp)

theorem mem_dictUpsert (k : K) (v : V) (m : List (K × V)) (kv : K × V)
    (h : kv ∈ dictUpsert k v m) : kv = (k, v) ∨ kv ∈ m := by
  induction m with
  | nil => simpa [dictUpsert] using h
  | cons kv0 rest ih =>
      obtain ⟨k0, v0⟩ := kv0
      by_cases h0 : k0 = k
      · subst h0
        rw [dictUpsert_cons_self] at h
        simp only [List.mem_cons] at h
        tauto
      · rw [dictUpsert_cons_ne _ _ _ _ _ h0] at h
        simp only [List.mem_cons] at h
        rcases h with rfl | h
        · simp
        · rcases ih h with h | h
          · exact Or.inl h
          · exact Or.inr (List.mem_cons_of_mem _ h)

theorem mem_foldl_upsert (l : List (K × V)) (m : List (K × V)) (kv : K × V)
    (h : kv ∈ l.foldl (fun m kv => dictUpsert kv.1 kv.2 m) m) :
    kv ∈ l ∨ kv ∈ m := by
  induction l generalizing m with
  | nil => exact Or.inr h
  | cons kv0 rest ih =>
      rcases ih _ h with h | h
      · exact Or.inl (List.mem_cons_of_mem _ h)
      · rcases mem_dictUpsert _ _ _ _ h with h | h
        · left
          rw [h]
          simp
        · exact Or.inr h

theorem mem_pyDict (l : List (K × V)) (kv : K × V) (h : kv ∈ pyDict l) : kv ∈ l := by
  rcases mem_foldl_upsert l [] kv h with h | h
  · exact h
  · simp at h

theorem dictGetD_upsert_self (k : K) (v : V) (m : List (K × V)) (dflt : V) :
    dictGetD k (dictUpsert k v m) dflt = v := by
  induction m with
  | nil => simp [dictUpsert, dictGetD]
  | cons kv rest ih =>
      obtain ⟨k0, v0⟩ := kv
      by_cases h : k0 = k
      · subst h
        rw [dictUpsert_cons_self, dictGetD, if_pos rfl]
      · rw [dictUpsert_cons_ne _ _ _ _ _ h, dictGetD, if_neg h, ih]

theorem dictGetD_upsert_ne (k k' : K) (v : V) (m : List (K × V)) (dflt : V)
    (h : k ≠ k') : dictGetD k' (dictUpsert k v m) dflt = dictGetD k' m dflt := by
  induction m with
  | nil => simp [dictUpsert, dictGetD, h]
  | cons kv rest ih =>
      obtain ⟨k0, v0⟩ := kv
      by_cases h0 : k0 = k
      · subst h0
        rw [dictUpsert_cons_self, dictGetD, dictGetD, if_neg h, if_neg h]
      · rw [dictUpsert_cons_ne _ _ _ _ _ h0, dictGetD, dictGetD, ih]

theorem mem_keys_foldl_upsert (l : List (K × V)) (m : List (K × V)) (k : K) :
    k ∈ ((l.foldl (fun m kv => dictUpsert kv.1 kv.2 m) m).map Prod.fst) ↔
      k ∈ l.map Prod.fst ∨ k ∈ m.map Prod.fst := by
  induction l generalizing m with
  | nil => simp
  | cons kv rest ih =>
      simp only [List.foldl_cons, List.map_cons, List.mem_cons]
      rw [ih, mem_keys_dictUpsert]
      tauto

variable {A : Type}

theorem foldl_upsertG_keys_nodup (f : A → K) (g : A → V) (l : List A)
    (m : List (K × V)) (hm : (m.map Prod.fst).Nodup) :
    ((l.foldl (fun m a => dictUpsert (f a) (g a) m) m).map Prod.fst).Nodup := by
  induction l generalizing m with
  | nil => exact hm
  | cons a rest ih => exact ih _ (keys_nodup_dictUpsert _ _ _ hm)

theorem mem_keys_foldl_upsertG (f : A → K) (g : A → V) (l : List A)
    (m : List (K × V)) (k : K) :
    k ∈ ((l.foldl (fun m a => dictUpsert (f a) (g a) m) m).map Prod.fst) ↔
      k ∈ l.map f ∨ k ∈ m.map Prod.fst := by
  induction l generalizing m with
  | nil => simp
  | cons a rest ih =>
      simp only [List.foldl_cons, List.map_cons, List.mem_cons]
      rw [ih, mem_keys_dictUpsert]
      tauto

theorem mem_foldl_upsertG (f : A → K) (g : A → V) (l : List A)
    (m : List (K × V)) (kv : K × V)
    (h : kv ∈ l.foldl (fun m a => dictUpsert (f a) (g a) m) m) :
    (∃ a ∈ l, kv = (f a, g a)) ∨ kv ∈ m := by
  induction l generalizing m with
  | nil => exact Or.inr h
  | cons a rest ih =>
      rcases ih _ h with h | h
      · obtain ⟨a', ha', rfl⟩ := h
        exact Or.inl ⟨a', List.mem_cons_of_mem _ ha', rfl⟩
      · rcases mem_dictUpsert _ _ _ _ h with h | h
        · exact Or.inl ⟨a, List.mem_cons_self _ _, h⟩
        · exact Or.inr h

theorem foldl_upsertG_getD (f : A → K) (g : A → V) (l : List A)
    (m : List (K × V)) (k : K) (dflt : V) :
    dictGetD k (l.foldl (fun m a => dictUpsert (f a) (g a) m) m) dflt =
      l.foldl (fun acc a => if f a = k then g a else acc) (dictGetD k m dflt) := by
  induction l generalizing m with
  | nil => rfl
  | cons a rest ih =>
      simp only [List.foldl_cons]
      by_cases h : f a = k
      · rw [ih, h, if_pos rfl, dictGetD_upsert_self]
      · rw [ih, if_neg h, dictGetD_upsert_ne _ _ _ _ _ h]

theorem foldl_keep_lastG (q : A → Prop) [DecidablePred q] (g : A → V) (l : List A)
    (init : V) :
    l.foldl (fun acc a => if q a then g a else acc) init =
      (((l.filter (fun a => decide (q a))).getLast?).map g).getD init := by
  induction l generalizing init with
  | nil => rfl
  | cons a rest ih =>
      simp only [List.foldl_cons]
      by_cases h : q a
      · rw [if_pos h, ih, List.filter_cons_of_pos (by simpa using h)]
        cases hf : rest.filter (fun a => decide (q a)) with
        | nil => simp
        | cons b tl =>
            obtain ⟨x, hx⟩ := Option.isSome_iff_exists.mp
              (List.getLast?_isSome.mpr (List.cons_ne_nil b tl))
            simp [List.getLast?_cons_cons, hx]
      · rw [if_neg h, ih, List.filter_cons_of_neg (by simpa using h)]

theorem filter_values_assoc (f : V → K) (m : List (K × V))
    (hinv : ∀ kv ∈ m, f kv.2 = kv.1) (hnd : (m.map Prod.fst).Nodup)
    (k : K) (dflt : V) :
    (m.map Prod.snd).filter (fun v => decide (f v = k)) =
      if k ∈ m.map Prod.fst then [dictGetD k m dflt] else [] := by
  induction m with
  | nil => simp
  | cons kv rest ih =>
      obtain ⟨k0, v0⟩ := kv
      have hv0 : f v0 = k0 := hinv (k0, v0) (List.mem_cons_self _ _)
      simp only [List.map_cons, List.nodup_cons] at hnd
      have ihr := ih (fun kv h => hinv kv (List.mem_cons_of_mem _ h)) hnd.2
      by_cases h : k0 = k
      · subst h
        have hnot : k0 ∉ rest.map Prod.fst := hnd.1
        rw [List.map_cons, List.filter_cons_of_pos (by simp [hv0])]
        rw [ihr, if_neg hnot]
        simp [dictGetD, hv0]
      · rw [List.map_cons, List.filter_cons_of_neg (by simp [hv0, h])]
        rw [ihr]
        simp only [dictGetD, if_neg h, List.map_cons, List.mem_cons]
        have : ¬k ∈ [k0] ∨ True := Or.inr trivial
        by_cases hk : k ∈ rest.map Prod.fst
        · rw [if_pos hk, if_pos (Or.inr hk)]
        · rw [if_neg hk, if_neg (by rintro (rfl | hc) <;> [exact h rfl; exact hk hc])]

end DictLemmas

/-! ## Digit-string lemmas -/

theorem digitsToNat_append_one (l : PyStr) (c : ℕ) :
    digitsToNat (l ++ [c]) = 10 * digitsToNat l + (c - 48) := by
  simp only [digitsToNat, List.foldl_append, List.foldl_cons, List.foldl_nil]
  ring

theorem natToDigitsAux_congr :
    ∀ n fuel fuel', n < fuel → n < fuel' →
      natToDigitsAux fuel n = natToDigitsAux fuel' n := by
  intro n
  induction n using Nat.strong_induction_on with
  | _ n ih =>
      intro fuel fuel' hf hf'
      match fuel, fuel' with
      | f + 1, f' + 1 =>
          simp only [natToDigitsAux]
          by_cases h10 : n < 10
          · rw [if_pos h10, if_pos h10]
          · rw [if_neg h10, if_neg h10]
            have hdiv : n / 10 < n := Nat.div_lt_self (by omega) (by omega)
            rw [ih (n / 10) hdiv f f' (by omega) (by omega)]

theorem natToDigits_eq (n : ℕ) :
    natToDigits n = if n < 10 then [48 + n] else natToDigits (n / 10) ++ [48 + n % 10] := by
  have h : natToDigits n =
      if n < 10 then [48 + n] else natToDigitsAux n (n / 10) ++ [48 + n % 10] := rfl
  rw [h]
  by_cases h10 : n < 10
  · rw [if_pos h10, if_pos h10]
  · rw [if_neg h10, if_neg h10,
      natToDigitsAux_congr (n / 10) n (n / 10 + 1) (by omega) (by omega)]
    rfl

theorem natToDigits_all_digits (n : ℕ) : (natToDigits n).all isDigit = true := by
  induction n using Nat.strong_induction_on with
  | _ n ih =>
      rw [natToDigits_eq]
      by_cases h10 : n < 10
      · rw [if_pos h10]
        simp only [List.all_cons, List.all_nil, Bool.and_true, isDigit]
        simp only [Bool.and_eq_true, decide_eq_true_eq]
        omega
      · rw [if_neg h10, List.all_append]
        have hdiv : n / 10 < n := Nat.div_lt_self (by omega) (by omega)
        rw [ih (n / 10) hdiv]
        simp only [Bool.true_and, List.all_cons, List.all_nil, Bool.and_true, isDigit]
        simp only [Bool.and_eq_true, decide_eq_true_eq]
        omega

theorem natToDigits_ne_nil (n : ℕ) : natToDigits n ≠ [] := by
  rw [natToDigits_eq]
  by_cases h10 : n < 10
  · rw [if_pos h10]
    simp
  · rw [if_neg h10]
    simp

theorem digitsToNat_natToDigits (n : ℕ) : digitsToNat (natToDigits n) = n := by
  induction n using Nat.strong_induction_on with
  | _ n ih =>
      rw [natToDigits_eq]
      by_cases h10 : n < 10
      · rw [if_pos h10]
        simp only [digitsToNat, List.foldl_cons, List.foldl_nil]
        omega
      · have hdiv : n / 10 < n := Nat.div_lt_self (by omega) (by omega)
        rw [if_neg h10, digitsToNat_append_one, ih (n / 10) hdiv]
        omega

theorem takeWhile_append_stop {p : ℕ → Bool} :
    ∀ (xs : PyStr), xs.all p = true → ∀ (c : ℕ), p c = false → ∀ (ys : PyStr),
      (xs ++ c :: ys).takeWhile p = xs ∧ (xs ++ c :: ys).dropWhile p = c :: ys := by
  intro xs
  induction xs with
  | nil =>
      intro _ c hc ys
      simp [List.takeWhile_cons, List.dropWhile_cons, hc]
  | cons a xs ih =>
      intro hall c hc ys
      simp only [List.all_cons, Bool.and_eq_true] at hall
      have := ih hall.2 c hc ys
      simp only [List.cons_append, List.takeWhile_cons, List.dropWhile_cons, hall.1]
      simp only [if_true, this.1, this.2, and_self]

theorem dropWhile_eq_self_of_all {p : ℕ → Bool} (l : PyStr)
    (h : l.all (fun c => !p c) = true) : l.dropWhile p = l := by
  cases l with
  | nil => rfl
  | cons a rest =>
      simp only [List.all_cons, Bool.and_eq_true, Bool.not_eq_true'] at h
      simp [List.dropWhile_cons, h.1]

theorem strip_eq_self_of_all (l : PyStr)
    (h : l.all (fun c => !isPySpace c) = true) : strip l = l := by
  have hrev : l.reverse.all (fun c => !isPySpace c) = true := by
    rw [List.all_eq_true] at h ⊢
    intro c hc
    exact h c (List.mem_reverse.mp hc)
  rw [strip, dropWhile_eq_self_of_all l h, dropWhile_eq_self_of_all l.reverse hrev,
    List.reverse_reverse]

/-! ## Zero-padded fields and the ISO round trip -/

theorem digitsToNat_four (y : ℕ) (h : y ≤ 9999) :
    digitsToNat [48 + y / 1000 % 10, 48 + y / 100 % 10, 48 + y / 10 % 10, 48 + y % 10] = y := by
  simp only [digitsToNat, List.foldl_cons, List.foldl_nil]
  omega

theorem digitsToNat_two (n : ℕ) (h : n ≤ 99) :
    digitsToNat [48 + n / 10 % 10, 48 + n % 10] = n := by
  simp only [digitsToNat, List.foldl_cons, List.foldl_nil]
  omega

theorem isoZ_explicit (y mo da ho mi se : ℕ) :
    isoZ ⟨y, mo, da, ho, mi, se⟩ =
      [48 + y / 1000 % 10, 48 + y / 100 % 10, 48 + y / 10 % 10, 48 + y % 10, 45,
       48 + mo / 10 % 10, 48 + mo % 10, 45, 48 + da / 10 % 10, 48 + da % 10, 84,
       48 + ho / 10 % 10, 48 + ho % 10, 58, 48 + mi / 10 % 10, 48 + mi % 10, 58,
       48 + se / 10 % 10, 48 + se % 10, 90] := by
  simp [isoZ, pad4, pad2]

theorem daysInMonth_le_31 (y m : ℕ) : daysInMonth y m ≤ 31 := by
  rw [daysInMonth]
  split
  · split <;> omega
  · split <;> omega

theorem fromisoformatZ_isoZ (d : DT) (h : d.validB = true) :
    fromisoformatZ (isoZ d) = some d := by
  obtain ⟨y, mo, da, ho, mi, se⟩ := d
  simp only [DT.validB, Bool.and_eq_true, decide_eq_true_eq] at h
  obtain ⟨⟨⟨⟨⟨⟨⟨⟨hy1, hy2⟩, hm1⟩, hm2⟩, hd1⟩, hd2⟩, hh⟩, hmi⟩, hse⟩ := h
  have hdm := daysInMonth_le_31 y mo
  rw [isoZ_explicit, fromisoformatZ]
  rw [if_pos (by
    refine ⟨rfl, rfl, rfl, rfl, rfl, rfl, rfl, ?_⟩
    show ([48 + y / 1000 % 10, 48 + y / 100 % 10, 48 + y / 10 % 10, 48 + y % 10,
      48 + mo / 10 % 10, 48 + mo % 10, 48 + da / 10 % 10, 48 + da % 10,
      48 + ho / 10 % 10, 48 + ho % 10, 48 + mi / 10 % 10, 48 + mi % 10,
      48 + se / 10 % 10, 48 + se % 10].all isDigit) = true
    simp only [List.all_cons, List.all_nil, Bool.and_true, isDigit, Bool.and_eq_true,
      decide_eq_true_eq]
    omega)]
  show mkDTsec (digitsToNat [48 + y / 1000 % 10, 48 + y / 100 % 10, 48 + y / 10 % 10,
      48 + y % 10]) (digitsToNat [48 + mo / 10 % 10, 48 + mo % 10])
    (digitsToNat [48 + da / 10 % 10, 48 + da % 10])
    (digitsToNat [48 + ho / 10 % 10, 48 + ho % 10])
    (digitsToNat [48 + mi / 10 % 10, 48 + mi % 10])
    (digitsToNat [48 + se / 10 % 10, 48 + se % 10]) = some ⟨y, mo, da, ho, mi, se⟩
  rw [digitsToNat_four y (by omega), digitsToNat_two mo (by omega),
    digitsToNat_two da (by omega), digitsToNat_two ho (by omega),
    digitsToNat_two mi (by omega), digitsToNat_two se (by omega)]
  rw [mkDTsec, if_pos (by exact ⟨hy1, hy2, hm1, hm2, hd1, hd2, hh, hmi, hse⟩)]

theorem isoZ_inj (a b : DT) (ha : a.validB = true) (hb : b.validB = true)
    (h : isoZ a = isoZ b) : a = b := by
  have := fromisoformatZ_isoZ a ha
  rw [h, fromisoformatZ_isoZ b hb] at this
  exact (Option.some_inj.mp this).symm

/-! ## The formatted-temperature round trip -/

theorem isPySpace_of_digit (c : ℕ) (h : isDigit c = true) : isPySpace c = false := by
  simp only [isDigit, Bool.and_eq_true, decide_eq_true_eq] at h
  simp only [isPySpace, Bool.or_eq_false_iff, decide_eq_false_iff_not]
  omega

theorem all_not_space_of_digits (l : PyStr) (h : l.all isDigit = true) :
    l.all (fun c => !isPySpace c) = true := by
  rw [List.all_eq_true] at h ⊢
  intro c hc
  simp [isPySpace_of_digit c (h c hc)]

theorem fmt1_no_space (q : ℚ) : (fmt1 q).all (fun c => !isPySpace c) = true := by
  rw [fmt1]
  have h46 : (!isPySpace 46) = true := rfl
  have h45 : (!isPySpace 45) = true := rfl
  have hd : (!isPySpace (48 + (round (10 * q)).natAbs % 10)) = true := by
    rw [isPySpace_of_digit _ (by
      simp only [isDigit, Bool.and_eq_true, decide_eq_true_eq]
      omega)]
    rfl
  have hbody : (natToDigits ((round (10 * q)).natAbs / 10) ++
      [46, 48 + (round (10 * q)).natAbs % 10]).all (fun c => !isPySpace c) = true := by
    rw [List.all_append, all_not_space_of_digits _ (natToDigits_all_digits _)]
    simp only [Bool.true_and, List.all_cons, List.all_nil, Bool.and_true, h46, hd,
      Bool.true_and]
  split
  · simp only [List.all_cons, Bool.and_eq_true]
    exact ⟨h45, hbody⟩
  · exact hbody

theorem strip_fmt1 (q : ℚ) : strip (fmt1 q) = fmt1 q :=
  strip_eq_self_of_all _ (fmt1_no_space q)

theorem pyFloatUnsigned_body (a : ℕ) :
    pyFloatUnsigned (natToDigits (a / 10) ++ [46, 48 + a % 10]) = some ((a : ℚ) / 10) := by
  have hall := natToDigits_all_digits (a / 10)
  have h46 : isDigit 46 = false := rfl
  obtain ⟨htake, hdrop⟩ :=
    takeWhile_append_stop (natToDigits (a / 10)) hall 46 h46 [48 + a % 10]
  rw [pyFloatUnsigned]
  simp only [htake, hdrop]
  rw [if_pos (by
    refine ⟨by
      simp only [List.all_cons, List.all_nil, Bool.and_true, isDigit,
        Bool.and_eq_true, decide_eq_true_eq]
      omega, Or.inl (natToDigits_ne_nil _)⟩)]
  rw [digitsToNat_natToDigits]
  have h1 : digitsToNat [48 + a % 10] = a % 10 := by
    simp only [digitsToNat, List.foldl_cons, List.foldl_nil]
    omega
  rw [h1]
  have hcast : (a : ℚ) = ((a / 10 : ℕ) : ℚ) * 10 + ((a % 10 : ℕ) : ℚ) := by
    have h := Nat.div_add_mod a 10
    have h2 : ((10 * (a / 10) + a % 10 : ℕ) : ℚ) = (a : ℚ) := by exact_mod_cast h
    push_cast at h2
    linarith
  rw [Option.some_inj, List.length_cons, List.length_nil, pow_one,
    eq_div_iff (by norm_num : (10 : ℚ) ≠ 0)]
  rw [hcast]
  ring

theorem round_nonneg_of_nonneg (q : ℚ) (h : 0 ≤ q) : 0 ≤ round (10 * q) := by
  rw [round_eq]
  have : (0 : ℚ) ≤ 10 * q + 1 / 2 := by linarith
  exact Int.le_floor.mpr (by exact_mod_cast this)

theorem round_nonpos_of_neg (q : ℚ) (h : q < 0) : round (10 * q) ≤ 0 := by
  rw [round_eq]
  have h1 : 10 * q + 1 / 2 < ((1 : ℤ) : ℚ) := by push_cast; linarith
  have := Int.floor_lt.mpr h1
  omega

theorem pyFloat_fmt1 (q : ℚ) : pyFloat (fmt1 q) = some (round1 q) := by
  rw [pyFloat]
  rw [strip_fmt1]
  by_cases hq : q < 0
  · have hn : round (10 * q) ≤ 0 := round_nonpos_of_neg q hq
    rw [fmt1]
    rw [if_pos hq]
    simp only []
    rw [if_neg (by omega), if_pos trivial, pyFloatUnsigned_body]
    rw [round1, Option.map_some']
    congr 1
    have : ((round (10 * q)).natAbs : ℚ) = -((round (10 * q) : ℤ) : ℚ) := by
      rw [Int.cast_natAbs]
      exact_mod_cast abs_of_nonpos hn
    rw [this]
    ring
  · have hn : 0 ≤ round (10 * q) := round_nonneg_of_nonneg q (by linarith [not_lt.mp hq])
    rw [fmt1]
    rw [if_neg hq]
    obtain ⟨c, tl, hct, hdg⟩ : ∃ c tl, natToDigits ((round (10 * q)).natAbs / 10) = c :: tl ∧
        isDigit c = true := by
      cases hnd : natToDigits ((round (10 * q)).natAbs / 10) with
      | nil => exact absurd hnd (natToDigits_ne_nil _)
      | cons c tl =>
          refine ⟨c, tl, rfl, ?_⟩
          have := natToDigits_all_digits ((round (10 * q)).natAbs / 10)
          rw [hnd, List.all_cons, Bool.and_eq_true] at this
          exact this.1
    have hc48 : 48 ≤ c := by
      simp only [isDigit, Bool.and_eq_true, decide_eq_true_eq] at hdg
      exact hdg.1
    rw [hct, List.cons_append]
    simp only []
    rw [if_neg (by omega), if_neg (by omega)]
    rw [← List.cons_append, ← hct, pyFloatUnsigned_body]
    rw [round1, Option.some_inj]
    congr 1
    rw [Int.cast_natAbs]
    exact_mod_cast abs_of_nonneg hn

theorem round1_round1 (q : ℚ) : round1 (round1 q) = round1 q := by
  rw [round1, round1]
  have h : (10 : ℚ) * (((round (10 * q) : ℤ) : ℚ) / 10) = ((round (10 * q) : ℤ) : ℚ) := by
    field_simp
  rw [h, round_intCast]

/-! ## Lexicographic order of canonical timestamps -/

theorem validB_inRange (d : DT) (h : d.validB = true) : d.inRange = true := by
  obtain ⟨y, mo, da, ho, mi, se⟩ := d
  have hdm := daysInMonth_le_31 y mo
  simp only [DT.validB, Bool.and_eq_true, decide_eq_true_eq] at h
  simp only [DT.inRange, Bool.and_eq_true, decide_eq_true_eq]
  omega

theorem DT.key_inj (a b : DT) (ha : a.inRange = true) (hb : b.inRange = true)
    (h : a.key = b.key) : a = b := by
  obtain ⟨y1, mo1, d1, h1, mi1, s1⟩ := a
  obtain ⟨y2, mo2, d2, h2, mi2, s2⟩ := b
  simp only [DT.inRange, Bool.and_eq_true, decide_eq_true_eq] at ha hb
  simp only [DT.key] at h
  have : y1 = y2 ∧ mo1 = mo2 ∧ d1 = d2 ∧ h1 = h2 ∧ mi1 = mi2 ∧ s1 = s2 := by omega
  obtain ⟨rfl, rfl, rfl, rfl, rfl, rfl⟩ := this
  rfl

theorem lex_append_of_lex {r : ℕ → ℕ → Prop} :
    ∀ {xs ys : PyStr}, xs.length = ys.length → List.Lex r xs ys →
      ∀ (as bs : PyStr), List.Lex r (xs ++ as) (ys ++ bs) := by
  intro xs ys hlen h
  induction h with
  | nil => simp at hlen
  | @rel a l1 b l2 hab => exact fun as bs => List.Lex.rel hab
  | @cons a l1 l2 h ih =>
      intro as bs
      simp only [List.length_cons, Nat.succ_inj] at hlen
      exact List.Lex.cons (ih hlen as bs)

theorem pad2_lex (a b : ℕ) (ha : a < 100) (hb : b < 100) (h : a < b) :
    List.Lex (· < ·) (pad2 a) (pad2 b) := by
  rcases Nat.lt_trichotomy (a / 10 % 10) (b / 10 % 10) with hd | hd | hd
  · exact List.Lex.rel (by omega)
  · have he : 48 + a / 10 % 10 = 48 + b / 10 % 10 := by omega
    rw [pad2, pad2, he]
    exact List.Lex.cons (List.Lex.rel (by omega))
  · exact absurd h (by omega)

theorem pad2_lex_append (a b : ℕ) (ha : a < 100) (hb : b < 100) (h : a < b)
    (as bs : PyStr) : List.Lex (· < ·) (pad2 a ++ as) (pad2 b ++ bs) :=
  @lex_append_of_lex _ (pad2 a) (pad2 b) rfl (pad2_lex a b ha hb h) as bs

theorem pad4_eq_pad2_append (n : ℕ) : pad4 n = pad2 (n / 100) ++ pad2 (n % 100) := by
  simp only [pad4, pad2, List.cons_append, List.nil_append]
  have h1 : n / 100 / 10 % 10 = n / 1000 % 10 := by
    rw [Nat.div_div_eq_div_mul]
  have h2 : n / 100 % 10 = n / 100 % 10 := rfl
  have h3 : n % 100 / 10 % 10 = n / 10 % 10 := by omega
  have h4 : n % 100 % 10 = n % 10 := by omega
  rw [h1, h3, h4]

theorem pad4_lex (a b : ℕ) (ha : a < 10000) (hb : b < 10000) (h : a < b) :
    List.Lex (· < ·) (pad4 a) (pad4 b) := by
  rw [pad4_eq_pad2_append, pad4_eq_pad2_append]
  rcases Nat.lt_trichotomy (a / 100) (b / 100) with hd | hd | hd
  · exact pad2_lex_append _ _ (by omega) (by omega) hd _ _
  · rw [hd]
    exact List.Lex.append_left _ (pad2_lex _ _ (by omega) (by omega) (by omega)) _
  · exact absurd h (by omega)

theorem pad4_lex_append (a b : ℕ) (ha : a < 10000) (hb : b < 10000) (h : a < b)
    (as bs : PyStr) : List.Lex (· < ·) (pad4 a ++ as) (pad4 b ++ bs) :=
  @lex_append_of_lex _ (pad4 a) (pad4 b) rfl (pad4_lex a b ha hb h) as bs

theorem isoZ_lex (a b : DT) (ha : a.validB = true) (hb : b.validB = true)
    (h : a.key < b.key) : List.Lex (· < ·) (isoZ a) (isoZ b) := by
  obtain ⟨y1, mo1, d1, h1, mi1, s1⟩ := a
  obtain ⟨y2, mo2, d2, h2, mi2, s2⟩ := b
  have hdm1 := daysInMonth_le_31 y1 mo1
  have hdm2 := daysInMonth_le_31 y2 mo2
  simp only [DT.validB, Bool.and_eq_true, decide_eq_true_eq] at ha hb
  simp only [DT.key] at h
  have hfield : y1 < y2 ∨ (y1 = y2 ∧ (mo1 < mo2 ∨ (mo1 = mo2 ∧ (d1 < d2 ∨ (d1 = d2 ∧
      (h1 < h2 ∨ (h1 = h2 ∧ (mi1 < mi2 ∨ (mi1 = mi2 ∧ s1 < s2))))))))) := by
    omega
  simp only [isoZ, List.append_assoc, List.singleton_append]
  rcases hfield with hy | ⟨rfl, hrest⟩
  · exact pad4_lex_append y1 y2 (by omega) (by omega) hy _ _
  refine List.Lex.append_left _ ?_ _
  refine List.Lex.cons ?_
  rcases hrest with hmo | ⟨rfl, hrest⟩
  · exact pad2_lex_append mo1 mo2 (by omega) (by omega) hmo _ _
  refine List.Lex.append_left _ ?_ _
  refine List.Lex.cons ?_
  rcases hrest with hd | ⟨rfl, hrest⟩
  · exact pad2_lex_append d1 d2 (by omega) (by omega) hd _ _
  refine List.Lex.append_left _ ?_ _
  refine List.Lex.cons ?_
  rcases hrest with hh | ⟨rfl, hrest⟩
  · exact pad2_lex_append h1 h2 (by omega) (by omega) hh _ _
  refine List.Lex.append_left _ ?_ _
  refine List.Lex.cons ?_
  rcases hrest with hmi | ⟨rfl, hs⟩
  · exact pad2_lex_append mi1 mi2 (by omega) (by omega) hmi _ _
  refine List.Lex.append_left _ ?_ _
  refine List.Lex.cons ?_
  exact pad2_lex_append s1 s2 (by omega) (by omega) hs _ _

theorem isoZ_lt_iff (a b : DT) (ha : a.validB = true) (hb : b.validB = true) :
    pyLt (isoZ a) (isoZ b) ↔ a.key < b.key := by
  constructor
  · intro h
    rcases Nat.lt_trichotomy a.key b.key with hk | hk | hk
    · exact hk
    · have : a = b := DT.key_inj a b (validB_inRange a ha) (validB_inRange b hb) hk
      subst this
      exact absurd h (asymm h)
    · exact absurd h (asymm (isoZ_lex b a hb ha hk))
  · exact isoZ_lex a b ha hb

/-! ## Cleaning is idempotent -/

theorem dropWhile_head_false {p : ℕ → Bool} :
    ∀ {l : PyStr} {c : ℕ} {rest : PyStr}, l.dropWhile p = c :: rest → p c = false := by
  intro l
  induction l with
  | nil => intro c rest h; simp at h
  | cons a l ih =>
      intro c rest h
      rw [List.dropWhile_cons] at h
      by_cases hp : p a
      · rw [if_pos hp] at h
        exact ih h
      · rw [if_neg hp] at h
        cases h
        simpa using hp

theorem dropWhile_idem (p : ℕ → Bool) (l : PyStr) :
    (l.dropWhile p).dropWhile p = l.dropWhile p := by
  cases h : l.dropWhile p with
  | nil => rfl
  | cons c rest =>
      rw [List.dropWhile_cons, if_neg (by simp [dropWhile_head_false h])]

theorem dropWhile_eq_self_cons {p : ℕ → Bool} {c : ℕ} {rest : PyStr}
    (h : (c :: rest).dropWhile p = c :: rest) : p c = false := by
  by_cases hp : p c
  · rw [List.dropWhile_cons, if_pos hp] at h
    have hle : (rest.dropWhile p).length ≤ rest.length :=
      (List.dropWhile_suffix p).length_le
    rw [h] at hle
    simp at hle
  · simpa using hp

theorem strip_front_clean (s : PyStr) : (strip s).dropWhile isPySpace = strip s := by
  have hpre : strip s <+: s.dropWhile isPySpace := by
    rw [← List.reverse_suffix]
    have : (strip s).reverse = ((s.dropWhile isPySpace).reverse).dropWhile isPySpace := by
      rw [strip, List.reverse_reverse]
    rw [this]
    exact List.dropWhile_suffix isPySpace
  cases hs : strip s with
  | nil => rfl
  | cons c rest =>
      rw [hs] at hpre
      obtain ⟨r2, hr2⟩ := hpre
      have hdw : s.dropWhile isPySpace = c :: (rest ++ r2) := by
        rw [← hr2, List.cons_append]
      have hc := dropWhile_head_false hdw
      rw [List.dropWhile_cons, if_neg (by simp [hc])]

theorem strip_back_clean (s : PyStr) :
    (strip s).reverse.dropWhile isPySpace = (strip s).reverse := by
  rw [strip, List.reverse_reverse, dropWhile_idem]

theorem strip_eq_self_of_clean_ends (x : PyStr)
    (hf : x.dropWhile isPySpace = x)
    (hb : x.reverse.dropWhile isPySpace = x.reverse) : strip x = x := by
  rw [strip, hf, hb, List.reverse_reverse]

theorem sub160_idem (c : ℕ) :
    (if (if c = 160 then 32 else c) = 160 then 32 else if c = 160 then 32 else c) =
      if c = 160 then 32 else c := by
  by_cases h : c = 160 <;> simp [h]

theorem sub160_not_space {c : ℕ} (h : isPySpace c = false) :
    (if c = 160 then 32 else c) = c := by
  have : c ≠ 160 := by
    intro hc
    rw [hc] at h
    simp [isPySpace] at h
  rw [if_neg this]

theorem clean_idem (s : PyStr) : _clean_text (_clean_text s) = _clean_text s := by
  have hstrip : strip ((strip s).map (fun c => if c = 160 then 32 else c)) =
      (strip s).map (fun c => if c = 160 then 32 else c) := by
    apply strip_eq_self_of_clean_ends
    · cases hs : strip s with
      | nil => rfl
      | cons c rest =>
          have hc : isPySpace c = false := by
            have := strip_front_clean s
            rw [hs] at this
            exact dropWhile_eq_self_cons this
          rw [List.map_cons, List.dropWhile_cons, sub160_not_space hc,
            if_neg (by simp [hc])]
    · rw [← List.map_reverse]
      cases hs : (strip s).reverse with
      | nil => rfl
      | cons c rest =>
          have hc : isPySpace c = false := by
            have := strip_back_clean s
            rw [hs] at this
            exact dropWhile_eq_self_cons this
          rw [List.map_cons, List.dropWhile_cons, sub160_not_space hc,
            if_neg (by simp [hc])]
  rw [_clean_text, _clean_text, hstrip, List.map_map]
  apply List.map_congr_left
  intro c _
  exact sub160_idem c

theorem parse_float_clean (x : PyStr) :
    _parse_float_celsius (_clean_text x) = _parse_float_celsius x := by
  simp only [_parse_float_celsius, clean_idem]

/-! ## Validity of parsed instants -/

theorem mkDT_validB (y m d h mi : ℕ) (dt : DT) (hd : mkDT y m d h mi = some dt) :
    dt.validB = true := by
  rw [mkDT] at hd
  split_ifs at hd with hc
  obtain ⟨h1, h2, h3, h4, h5, h6, h7, h8⟩ := hc
  cases hd
  simp only [DT.validB, Bool.and_eq_true, decide_eq_true_eq]
  omega

theorem strptimeDMYHM_validB (s : PyStr) (d : DT) (h : strptimeDMYHM s = some d) :
    d.validB = true := by
  simp only [strptimeDMYHM] at h
  repeat' split at h
  all_goals try exact absurd h (by simp)
  all_goals exact mkDT_validB _ _ _ _ _ _ h

theorem astimezoneUTC_inRange (d : DT) (h : d.inRange = true) :
    (astimezoneUTC d).inRange = true := by
  obtain ⟨y, mo, da, ho, mi, se⟩ := d
  simp only [DT.inRange, Bool.and_eq_true, decide_eq_true_eq] at h
  have h28 := daysInMonth_le_31 y (mo - 1)
  simp only [astimezoneUTC, madridOffsetLocal, DT.prevDay]
  split_ifs <;>
    simp only [DT.inRange, Bool.and_eq_true, decide_eq_true_eq] <;>
    omega

theorem validB_astimezoneUTC_inRange (d : DT) (h : d.validB = true) :
    (astimezoneUTC d).inRange = true :=
  astimezoneUTC_inRange d (validB_inRange d h)

theorem parseRow_inRange (idxF idxT : ℕ) (tds : List PyStr) (p : DT × ℚ)
    (h : parseRow idxF idxT tds = some p) : p.1.inRange = true := by
  rw [parseRow] at h
  split_ifs at h
  revert h
  dsimp only
  split
  · intro h
    simp at h
  · next dtLocal heq =>
      split
      · intro h
        simp at h
      · next v heqv =>
          intro h
          simp only [Option.some_inj] at h
          have hv : dtLocal.validB = true := by
            cases hst : strptimeDMYHM (_clean_text (tds.getD idxF [])) with
            | some d1 =>
                rw [hst] at heq
                simp only [Option.orElse] at heq
                cases heq
                exact strptimeDMYHM_validB _ _ hst
            | none =>
                rw [hst] at heq
                simp only [Option.orElse] at heq
                exact strptimeDMYHM_validB _ _ heq
          rw [← h]
          exact validB_astimezoneUTC_inRange _ hv

/-! ## Structure of successful parses -/

theorem parse_ok_inv (html : Html) (pairs : List (DT × ℚ))
    (h : parse_aemet_html_last24 html = .ok pairs) :
    ∃ (table : HtmlTable) (ths : List PyStr) (idxF idxT : ℕ),
      html = some table ∧ table.thead = some ths ∧
      findIdxFecha (ths.map _clean_text) = some idxF ∧
      findIdxTemp (ths.map _clean_text) = some idxT ∧
      pairs =
        (((pyDict (sortPairs (table.rows.filterMap (parseRow idxF idxT)))).map
            Prod.fst).insertionSort (fun a b => a.key ≤ b.key)).map
          (fun ts =>
            (ts, dictGetD ts (pyDict (sortPairs (table.rows.filterMap (parseRow idxF idxT)))) 0)) := by
  cases html with
  | none => simp [parse_aemet_html_last24] at h
  | some table =>
      cases hth : table.thead with
      | none => simp [parse_aemet_html_last24, hth] at h
      | some ths =>
          rw [parse_aemet_html_last24, hth] at h
          dsimp only at h
          split_ifs at h
          revert h
          cases hf : findIdxFecha (ths.map _clean_text) with
          | none => intro h; simp at h
          | some idxF =>
              cases ht : findIdxTemp (ths.map _clean_text) with
              | none => intro h; simp at h
              | some idxT =>
                  intro h
                  simp only [Except.ok.injEq] at h
                  exact ⟨table, ths, idxF, idxT, rfl, hth, hf, ht, h.symm⟩

theorem parse_ok_struct (html : Html) (pairs : List (DT × ℚ))
    (h : parse_aemet_html_last24 html = .ok pairs) :
    (pairs.map Prod.fst).Nodup ∧ List.Sorted (· < ·) (pairs.map (fun p => p.1.key)) := by
  obtain ⟨table, ths, idxF, idxT, -, -, -, -, hp⟩ := parse_ok_inv html pairs h
  subst hp
  have hnd : (((pyDict (sortPairs (table.rows.filterMap (parseRow idxF idxT)))).map
      Prod.fst).insertionSort (fun a b => a.key ≤ b.key)).Nodup :=
    ((List.perm_insertionSort _ _).nodup_iff).mpr (pyDict_keys_nodup _)
  have hsort : List.Sorted (fun a b : DT => a.key ≤ b.key)
      (((pyDict (sortPairs (table.rows.filterMap (parseRow idxF idxT)))).map
        Prod.fst).insertionSort (fun a b => a.key ≤ b.key)) :=
    List.sorted_insertionSort _ _
  have hir : ∀ x ∈ ((pyDict (sortPairs (table.rows.filterMap (parseRow idxF idxT)))).map
      Prod.fst).insertionSort (fun a b => a.key ≤ b.key), x.inRange = true := by
    intro x hx
    have hx2 := (List.perm_insertionSort (fun a b : DT => a.key ≤ b.key) _).mem_iff.mp hx
    obtain ⟨kv, hkv, hfst⟩ := List.mem_map.mp hx2
    have hkv2 := mem_pyDict _ _ (hkv)
    rw [sortPairs] at hkv2
    have hkv3 := (List.perm_insertionSort (fun a b : DT × ℚ => a.1.key ≤ b.1.key) _).mem_iff.mp hkv2
    obtain ⟨tds, -, hpr⟩ := List.mem_filterMap.mp hkv3
    rw [← hfst]
    exact parseRow_inRange idxF idxT tds kv hpr
  have hstrict : List.Pairwise (fun a b : DT => a.key < b.key)
      (((pyDict (sortPairs (table.rows.filterMap (parseRow idxF idxT)))).map
        Prod.fst).insertionSort (fun a b => a.key ≤ b.key)) := by
    refine List.Pairwise.imp_of_mem ?_ (hsort.and hnd)
    intro a b ha hb hab
    exact lt_of_le_of_ne hab.1 (fun hk => hab.2 (DT.key_inj a b (hir a ha) (hir b hb) hk))
  constructor
  · rw [List.map_map]
    have hcomp : (Prod.fst ∘ fun ts : DT =>
        (ts, dictGetD ts (pyDict (sortPairs (table.rows.filterMap (parseRow idxF idxT)))) 0)) =
          fun ts : DT => ts := rfl
    rw [hcomp]
    simpa using hnd
  · rw [List.map_map]
    have hcomp : ((fun p : DT × ℚ => p.1.key) ∘ fun ts : DT =>
        (ts, dictGetD ts (pyDict (sortPairs (table.rows.filterMap (parseRow idxF idxT)))) 0)) =
          fun ts : DT => ts.key := rfl
    rw [hcomp]
    exact List.pairwise_map.mpr hstrict

theorem parse_drop_bad_row (ths : List PyStr) (rows1 rows2 : List (List PyStr))
    (row : List PyStr)
    (hbad : ∀ idxF idxT, findIdxFecha (ths.map _clean_text) = some idxF →
        findIdxTemp (ths.map _clean_text) = some idxT → parseRow idxF idxT row = none) :
    parse_aemet_html_last24 (some ⟨some ths, rows1 ++ row :: rows2⟩) =
      parse_aemet_html_last24 (some ⟨some ths, rows1 ++ rows2⟩) := by
  rw [parse_aemet_html_last24, parse_aemet_html_last24]
  dsimp only
  split_ifs
  · rfl
  · cases hf : findIdxFecha (ths.map _clean_text) with
    | none => rfl
    | some idxF =>
        cases ht : findIdxTemp (ths.map _clean_text) with
        | none => rfl
        | some idxT =>
            have hnone := hbad idxF idxT hf ht
            dsimp only
            rw [List.filterMap_append, List.filterMap_append,
              List.filterMap_cons_none hnone]

/-! ## Merge machinery -/

section MergeLemmas

variable {K V : Type} [DecidableEq K] {A : Type}

theorem dictUpsert_fresh (k : K) (v : V) (m : List (K × V))
    (h : k ∉ m.map Prod.fst) : dictUpsert k v m = m ++ [(k, v)] := by
  induction m with
  | nil => rfl
  | cons kv rest ih =>
      obtain ⟨k0, v0⟩ := kv
      simp only [List.map_cons, List.mem_cons] at h
      rw [dictUpsert_cons_ne k k0 v v0 rest (fun he => h (Or.inl he.symm)), List.cons_append,
        ih (fun hm => h (Or.inr hm))]

theorem pyDict_eq_self (l : List (K × V)) (h : (l.map Prod.fst).Nodup) : pyDict l = l := by
  induction l using List.reverseRecOn with
  | nil => rfl
  | append_singleton xs kv ih =>
      rw [List.map_append, List.nodup_append] at h
      obtain ⟨h1, -, h3⟩ := h
      have hfresh : kv.1 ∉ xs.map Prod.fst := fun hc => h3 hc (by simp)
      have hpd : xs.foldl (fun m p => dictUpsert p.1 p.2 m) [] = xs := ih h1
      rw [pyDict, List.foldl_append, List.foldl_cons, List.foldl_nil, hpd,
        dictUpsert_fresh kv.1 kv.2 xs hfresh]

theorem dictGetD_mem_self (m : List (K × V)) (hnd : (m.map Prod.fst).Nodup)
    (k : K) (v : V) (h : (k, v) ∈ m) (dflt : V) : dictGetD k m dflt = v := by
  induction m with
  | nil => simp at h
  | cons kv rest ih =>
      obtain ⟨k0, v0⟩ := kv
      simp only [List.map_cons, List.nodup_cons] at hnd
      rcases List.mem_cons.mp h with he | hm
      · cases he
        rw [dictGetD, if_pos rfl]
      · have hne : k0 ≠ k := by
          rintro rfl
          exact hnd.1 (List.mem_map.mpr ⟨(k0, v), hm, rfl⟩)
        rw [dictGetD, if_neg hne]
        exact ih hnd.2 hm

theorem foldl_upsert_cons_untouched (f : A → K) (g : A → V) (l : List A)
    (k0 : K) (v0 : V) (m : List (K × V)) (h : ∀ a ∈ l, f a ≠ k0) :
    l.foldl (fun m a => dictUpsert (f a) (g a) m) ((k0, v0) :: m) =
      (k0, v0) :: l.foldl (fun m a => dictUpsert (f a) (g a) m) m := by
  induction l generalizing m with
  | nil => rfl
  | cons a rest ih =>
      simp only [List.foldl_cons]
      rw [dictUpsert_cons_ne _ _ _ _ _ (fun he => h a (List.mem_cons_self a rest) he.symm)]
      exact ih _ (fun a' ha' => h a' (List.mem_cons_of_mem _ ha'))

theorem foldl_upsert_overwrite (f : A → K) (g g' : A → V) (l : List A)
    (hnd : (l.map f).Nodup) :
    l.foldl (fun m a => dictUpsert (f a) (g a) m) (l.map (fun a => (f a, g' a))) =
      l.map (fun a => (f a, g a)) := by
  induction l with
  | nil => rfl
  | cons a rest ih =>
      simp only [List.map_cons, List.nodup_cons] at hnd
      simp only [List.map_cons, List.foldl_cons, dictUpsert_cons_self]
      rw [foldl_upsert_cons_untouched f g rest (f a) (g a) _
        (fun a' ha' he => hnd.1 (he ▸ List.mem_map.mpr ⟨a', ha', rfl⟩)), ih hnd.2]

theorem filter_eq_singleton_of_nodup (l : List K) (a : K) (hnd : l.Nodup) (ha : a ∈ l) :
    l.filter (fun x => decide (x = a)) = [a] := by
  induction l with
  | nil => simp at ha
  | cons b rest ih =>
      simp only [List.nodup_cons] at hnd
      rcases List.mem_cons.mp ha with heq | hm
      · subst heq
        rw [List.filter_cons_of_pos (by simp)]
        have hrest : rest.filter (fun x => decide (x = a)) = [] := by
          rw [List.filter_eq_nil_iff]
          intro x hx
          simp only [decide_eq_true_eq]
          rintro rfl
          exact hnd.1 hx
        rw [hrest]
      · have hne : b ≠ a := by
          rintro rfl
          exact hnd.1 hm
        rw [List.filter_cons_of_neg (by simpa using hne)]
        exact ih hnd.2 hm

end MergeLemmas

theorem mkDTsec_validB (y m d h mi se : ℕ) (dt : DT) (hd : mkDTsec y m d h mi se = some dt) :
    dt.validB = true := by
  rw [mkDTsec] at hd
  split_ifs at hd with hc
  cases hd
  simp only [DT.validB, Bool.and_eq_true, decide_eq_true_eq]
  omega

theorem fromisoformatZ_validB (s : PyStr) (d : DT) (h : fromisoformatZ s = some d) :
    d.validB = true := by
  rw [fromisoformatZ] at h
  split_ifs at h
  exact mkDTsec_validB _ _ _ _ _ _ _ h

theorem getLast?_mem_self {α : Type} {l : List α} {a : α} (h : l.getLast? = some a) :
    a ∈ l := by
  obtain ⟨hne, rfl⟩ := List.mem_getLast?_eq_getLast (Option.mem_def.mpr h)
  exact List.getLast_mem hne

/-! ## Last-write-wins for the two mergers -/

theorem merge_rows_filter_key (arch hourly : List Row) (k : PyStr) (r : Row)
    (hlast : (hourly.filter (fun row => decide (row.datetime_utc = k))).getLast? = some r) :
    (merge_rows arch hourly).filter (fun row => decide (row.datetime_utc = k)) = [r] := by
  have hinv : ∀ kv ∈ hourly.foldl (fun m row => dictUpsert row.datetime_utc row m)
      (pyDict (arch.map (fun row => (row.datetime_utc, row)))), kv.2.datetime_utc = kv.1 := by
    intro kv hkv
    rcases mem_foldl_upsertG (fun row : Row => row.datetime_utc) (fun row => row) hourly _
        kv hkv with ⟨a, -, rfl⟩ | hkv2
    · rfl
    · obtain ⟨a, -, rfl⟩ := List.mem_map.mp (mem_pyDict _ _ hkv2)
      rfl
  have hnd : ((hourly.foldl (fun m row => dictUpsert row.datetime_utc row m)
      (pyDict (arch.map (fun row => (row.datetime_utc, row))))).map Prod.fst).Nodup :=
    foldl_upsertG_keys_nodup (fun row : Row => row.datetime_utc) (fun row => row) hourly _
      (pyDict_keys_nodup _)
  have hrfk : r ∈ hourly ∧ r.datetime_utc = k := by
    have hm := List.mem_filter.mp (getLast?_mem_self hlast)
    exact ⟨hm.1, by simpa using hm.2⟩
  have hkmem : k ∈ (hourly.foldl (fun m row => dictUpsert row.datetime_utc row m)
      (pyDict (arch.map (fun row => (row.datetime_utc, row))))).map Prod.fst := by
    rw [mem_keys_foldl_upsertG]
    exact Or.inl (List.mem_map.mpr ⟨r, hrfk.1, hrfk.2⟩)
  have hget : dictGetD k (hourly.foldl (fun m row => dictUpsert row.datetime_utc row m)
      (pyDict (arch.map (fun row => (row.datetime_utc, row))))) ⟨[], [], [], [], []⟩ = r := by
    rw [foldl_upsertG_getD]
    rw [foldl_keep_lastG (fun row : Row => row.datetime_utc = k) (fun row => row) hourly _]
    rw [hlast, Option.map_some', Option.getD_some]
  have hfiltv := filter_values_assoc (fun row : Row => row.datetime_utc)
    (hourly.foldl (fun m row => dictUpsert row.datetime_utc row m)
      (pyDict (arch.map (fun row => (row.datetime_utc, row))))) hinv hnd k ⟨[], [], [], [], []⟩
  rw [if_pos hkmem, hget] at hfiltv
  have hperm := ((List.perm_insertionSort rowLe
    ((hourly.foldl (fun m row => dictUpsert row.datetime_utc row m)
      (pyDict (arch.map (fun row => (row.datetime_utc, row))))).map Prod.snd)).filter
        (fun row => decide (row.datetime_utc = k)))
  rw [hfiltv] at hperm
  exact List.perm_singleton.mp hperm

theorem read_old_valid (rows : List Row) :
    ∀ old : List (DT × ℚ), read_old rows = some old → ∀ p ∈ old, p.1.validB = true := by
  induction rows with
  | nil =>
      intro old h
      have h2 : some ([] : List (DT × ℚ)) = some old := h
      injection h2 with h3
      subst h3
      intro p hp
      simp at hp
  | cons r rs ih =>
      intro old h
      revert h
      show (match fromisoformatZ r.datetime_utc, pyFloat r.temp_c with
            | some dt, some v => (read_old rs).map (fun l => (dt, v) :: l)
            | _, _ => none) = some old → ∀ p ∈ old, p.1.validB = true
      cases hf : fromisoformatZ r.datetime_utc with
      | none =>
          intro h
          have h2 : (none : Option (List (DT × ℚ))) = some old := h
          simp at h2
      | some dt =>
          cases hq : pyFloat r.temp_c with
          | none =>
              intro h
              have h2 : (none : Option (List (DT × ℚ))) = some old := h
              simp at h2
          | some v =>
              intro h
              cases hr : read_old rs with
              | none => rw [hr] at h; simp at h
              | some l =>
                  rw [hr] at h
                  simp only [Option.map_some'] at h
                  injection h with h2
                  subst h2
                  intro p hp
                  rcases List.mem_cons.mp hp with rfl | hp2
                  · exact fromisoformatZ_validB _ _ hf
                  · exact ih l hr p hp2

theorem read_old_cons (r : Row) (rs : List Row) :
    read_old (r :: rs) =
      match fromisoformatZ r.datetime_utc, pyFloat r.temp_c with
      | some dt, some v => (read_old rs).map (fun l => (dt, v) :: l)
      | _, _ => none := rfl

theorem read_keys_cons (k : PyStr) (v : ℚ) (rest : List (PyStr × ℚ)) :
    read_keys ((k, v) :: rest) =
      match fromisoformatZ k with
      | some dt => (read_keys rest).map (fun l => (dt, v) :: l)
      | none => none := rfl

theorem read_old_map_of_some (rows : List Row) (f : Row → DT × ℚ)
    (h : ∀ r ∈ rows, fromisoformatZ r.datetime_utc = some (f r).1 ∧
        pyFloat r.temp_c = some (f r).2) :
    read_old rows = some (rows.map f) := by
  induction rows with
  | nil => rfl
  | cons r rs ih =>
      rw [read_old_cons, (h r (List.mem_cons_self _ _)).1, (h r (List.mem_cons_self _ _)).2,
        ih (fun r2 hr2 => h r2 (List.mem_cons_of_mem _ hr2))]
      rfl

theorem read_old_write_csv (P : List (DT × ℚ)) (hv : ∀ p ∈ P, p.1.validB = true) :
    read_old (write_csv P) = some (P.map (fun p => (p.1, round1 p.2))) := by
  have h1 : read_old (write_csv P) =
      some ((write_csv P).map (fun r => (parseD r.datetime_utc, (pyFloat r.temp_c).getD 0))) := by
    apply read_old_map_of_some
    intro r hr
    obtain ⟨p, hp, rfl⟩ := List.mem_map.mp hr
    constructor
    · dsimp only
      rw [parseD, fromisoformatZ_isoZ _ (hv p hp)]
      rfl
    · dsimp only
      rw [pyFloat_fmt1]
      rfl
  rw [h1]
  congr 1
  rw [write_csv, List.map_map]
  apply List.map_congr_left
  intro p hp
  dsimp only [Function.comp]
  rw [parseD, fromisoformatZ_isoZ _ (hv p hp), pyFloat_fmt1]
  rfl

theorem foldl_upsertG_nil_eq_map {A K V : Type} [DecidableEq K] (f : A → K) (g : A → V)
    (l : List A) (hnd : (l.map f).Nodup) :
    l.foldl (fun m a => dictUpsert (f a) (g a) m) [] = l.map (fun a => (f a, g a)) := by
  have h1 : pyDict (l.map (fun a => (f a, g a))) = l.map (fun a => (f a, g a)) :=
    pyDict_eq_self _ (by rw [List.map_map]; exact hnd)
  have h2 : pyDict (l.map (fun a => (f a, g a))) =
      l.foldl (fun m a => dictUpsert (f a) (g a) m) [] := by
    rw [pyDict, List.foldl_map]
  rw [← h2, h1]

theorem series_dict_keys_nodup (old obs : List (DT × ℚ)) :
    ((series_dict old obs).map Prod.fst).Nodup := by
  rw [series_dict]
  exact foldl_upsertG_keys_nodup (fun p : DT × ℚ => isoZ p.1) Prod.snd obs _
    (foldl_upsertG_keys_nodup (fun p : DT × ℚ => isoZ p.1) Prod.snd old [] (by simp))

theorem series_dict_mem (old obs : List (DT × ℚ)) (kv : PyStr × ℚ)
    (h : kv ∈ series_dict old obs) :
    (∃ p ∈ obs, kv = (isoZ p.1, p.2)) ∨ ∃ p ∈ old, kv = (isoZ p.1, p.2) := by
  rw [series_dict] at h
  rcases mem_foldl_upsertG (fun p : DT × ℚ => isoZ p.1) Prod.snd obs _ kv h with h | h
  · exact Or.inl h
  · rcases mem_foldl_upsertG (fun p : DT × ℚ => isoZ p.1) Prod.snd old [] kv h with h | h
    · exact Or.inr h
    · simp at h

theorem series_dict_keys_valid (old obs : List (DT × ℚ))
    (hvold : ∀ p ∈ old, p.1.validB = true) (hv : ∀ p ∈ obs, p.1.validB = true) :
    ∀ kv ∈ series_dict old obs, ∃ d : DT, d.validB = true ∧ kv.1 = isoZ d := by
  intro kv h
  rcases series_dict_mem old obs kv h with ⟨p, hp, rfl⟩ | ⟨p, hp, rfl⟩
  · exact ⟨p.1, hv p hp, rfl⟩
  · exact ⟨p.1, hvold p hp, rfl⟩

theorem series_dict_pairs_spec (old obs : List (DT × ℚ))
    (hvold : ∀ p ∈ old, p.1.validB = true) (hv : ∀ p ∈ obs, p.1.validB = true) :
    ∀ kv ∈ series_dict old obs, (parseD kv.1).validB = true ∧ isoZ (parseD kv.1) = kv.1 := by
  intro kv h
  obtain ⟨d, hdv, hk⟩ := series_dict_keys_valid old obs hvold hv kv h
  have hpd : parseD kv.1 = d := by
    rw [hk, parseD, fromisoformatZ_isoZ d hdv]
    rfl
  rw [hpd, hk]
  exact ⟨hdv, rfl⟩

theorem read_keys_map (m : List (PyStr × ℚ))
    (h : ∀ kv ∈ m, (fromisoformatZ kv.1).isSome = true) :
    read_keys m = some (m.map (fun kv => (parseD kv.1, kv.2))) := by
  induction m with
  | nil => rfl
  | cons kv rest ih =>
      obtain ⟨k, v⟩ := kv
      have hk : (fromisoformatZ k).isSome = true := h (k, v) (List.mem_cons_self _ _)
      obtain ⟨d, hd⟩ := Option.isSome_iff_exists.mp hk
      have hpd : parseD k = d := by
        rw [parseD, hd]
        rfl
      rw [read_keys_cons, hd, ih (fun kv hkv => h kv (List.mem_cons_of_mem _ hkv))]
      show (some ((d, v) :: rest.map (fun kv => (parseD kv.1, kv.2))) :
            Option (List (DT × ℚ))) =
          some ((parseD k, v) :: rest.map (fun kv => (parseD kv.1, kv.2)))
      rw [hpd]

theorem series_dict_read_keys (old obs : List (DT × ℚ))
    (hvold : ∀ p ∈ old, p.1.validB = true) (hv : ∀ p ∈ obs, p.1.validB = true) :
    read_keys (series_dict old obs) =
      some ((series_dict old obs).map (fun kv => (parseD kv.1, kv.2))) := by
  apply read_keys_map
  intro kv hkv
  obtain ⟨d, hdv, hk⟩ := series_dict_keys_valid old obs hvold hv kv hkv
  rw [hk, fromisoformatZ_isoZ d hdv]
  rfl

theorem series_dict_parsed_nodup (old obs : List (DT × ℚ))
    (hvold : ∀ p ∈ old, p.1.validB = true) (hv : ∀ p ∈ obs, p.1.validB = true) :
    (((series_dict old obs).map (fun kv => (parseD kv.1, kv.2))).map Prod.fst).Nodup := by
  have hspec := series_dict_pairs_spec old obs hvold hv
  have heq : ((series_dict old obs).map
        (fun kv : PyStr × ℚ => (parseD kv.1, kv.2))).map Prod.fst =
      ((series_dict old obs).map Prod.fst).map parseD := by
    rw [List.map_map, List.map_map]
    rfl
  rw [heq]
  apply List.Nodup.map_on ?_ (series_dict_keys_nodup old obs)
  intro k1 hk1 k2 hk2 he
  obtain ⟨kv1, hkv1, rfl⟩ := List.mem_map.mp hk1
  obtain ⟨kv2, hkv2, rfl⟩ := List.mem_map.mp hk2
  calc kv1.1 = isoZ (parseD kv1.1) := (hspec kv1 hkv1).2.symm
    _ = isoZ (parseD kv2.1) := by rw [he]
    _ = kv2.1 := (hspec kv2 hkv2).2

theorem series_dict_key_mem (old obs : List (DT × ℚ)) (p : DT × ℚ) (hp : p ∈ obs) :
    isoZ p.1 ∈ (series_dict old obs).map Prod.fst := by
  rw [series_dict]
  exact (mem_keys_foldl_upsertG (fun q : DT × ℚ => isoZ q.1) Prod.snd obs _ (isoZ p.1)).mpr
    (Or.inl (List.mem_map.mpr ⟨p, hp, rfl⟩))

theorem series_dict_getD (old obs : List (DT × ℚ)) (dt : DT) (pv : DT × ℚ) (dflt : ℚ)
    (hv : ∀ p ∈ obs, p.1.validB = true) (hdtv : dt.validB = true)
    (hlast : (obs.filter (fun p => decide (p.1 = dt))).getLast? = some pv) :
    dictGetD (isoZ dt) (series_dict old obs) dflt = pv.2 := by
  rw [series_dict]
  rw [foldl_upsertG_getD (fun p : DT × ℚ => isoZ p.1) Prod.snd obs _ (isoZ dt) dflt]
  rw [foldl_keep_lastG (fun p : DT × ℚ => isoZ p.1 = isoZ dt) Prod.snd obs _]
  have hfc : obs.filter (fun p => decide (isoZ p.1 = isoZ dt)) =
      obs.filter (fun p => decide (p.1 = dt)) := by
    apply List.filter_congr
    intro p hp
    simp only [decide_eq_decide]
    exact ⟨fun hiso => isoZ_inj p.1 dt (hv p hp) hdtv hiso, fun he => by rw [he]⟩
  rw [hfc, hlast, Option.map_some', Option.getD_some]

theorem getD_mem {K V : Type} [DecidableEq K] (m : List (K × V)) (k : K) (dflt : V)
    (h : k ∈ m.map Prod.fst) : (k, dictGetD k m dflt) ∈ m := by
  induction m with
  | nil => simp at h
  | cons kv rest ih =>
      obtain ⟨k0, v0⟩ := kv
      by_cases he : k0 = k
      · subst he
        rw [dictGetD, if_pos rfl]
        exact List.mem_cons_self _ _
      · rw [dictGetD, if_neg he]
        simp only [List.map_cons, List.mem_cons] at h
        rcases h with h | h
        · exact absurd h.symm he
        · exact List.mem_cons_of_mem _ (ih h)

theorem filter_pairs_singleton {K V : Type} [DecidableEq K] (l : List (K × V)) (k : K) (v : V)
    (hnd : (l.map Prod.fst).Nodup) (hmem : (k, v) ∈ l) :
    l.filter (fun p => decide (p.1 = k)) = [(k, v)] := by
  induction l with
  | nil => simp at hmem
  | cons kv rest ih =>
      obtain ⟨k0, v0⟩ := kv
      simp only [List.map_cons, List.nodup_cons] at hnd
      rcases List.mem_cons.mp hmem with he | hm
      · injection he with h1 h2
        subst h1
        subst h2
        rw [List.filter_cons_of_pos (by simp)]
        have hrest : rest.filter (fun p => decide (p.1 = k)) = [] := by
          rw [List.filter_eq_nil_iff]
          intro p hp
          simp only [decide_eq_true_eq]
          intro hpk
          exact hnd.1 (List.mem_map.mpr ⟨p, hp, hpk⟩)
        rw [hrest]
      · have hne : k0 ≠ k := by
          rintro rfl
          exact hnd.1 (List.mem_map.mpr ⟨(k0, v), hm, rfl⟩)
        rw [List.filter_cons_of_neg (by simpa using hne)]
        exact ih hnd.2 hm

theorem write_merged_some_inv (existing : Option (List Row)) (obs : List (DT × ℚ))
    (out : List Row) (hv : ∀ p ∈ obs, p.1.validB = true)
    (h : write_merged existing obs = some out) :
    ∃ old : List (DT × ℚ), (∀ p ∈ old, p.1.validB = true) ∧
      out = write_csv ((((series_dict old obs).map
        (fun kv => (parseD kv.1, kv.2))).insertionSort (fun a b => a.1.key ≤ b.1.key))) := by
  cases existing with
  | none =>
      refine ⟨[], by intro p hp; simp at hp, ?_⟩
      have h2 : (match read_keys (series_dict [] obs) with
                 | none => none
                 | some pairs =>
                     some (write_csv (pairs.insertionSort (fun a b => a.1.key ≤ b.1.key)))) =
          some out := h
      rw [series_dict_read_keys [] obs (by intro p hp; simp at hp) hv] at h2
      have h3 : some (write_csv ((((series_dict [] obs).map
          (fun kv => (parseD kv.1, kv.2))).insertionSort
            (fun a b => a.1.key ≤ b.1.key)))) = some out := h2
      injection h3 with h4
      exact h4.symm
  | some rows =>
      have h2 : (match read_old rows with
                 | none => (none : Option (List Row))
                 | some old =>
                     match read_keys (series_dict old obs) with
                     | none => none
                     | some pairs =>
                         some (write_csv (pairs.insertionSort
                           (fun a b => a.1.key ≤ b.1.key)))) = some out := h
      cases hro : read_old rows with
      | none =>
          rw [hro] at h2
          have h3 : (none : Option (List Row)) = some out := h2
          simp at h3
      | some old =>
          have hvold : ∀ p ∈ old, p.1.validB = true := read_old_valid rows old hro
          rw [hro] at h2
          have h3 : (match read_keys (series_dict old obs) with
                     | none => none
                     | some pairs =>
                         some (write_csv (pairs.insertionSort
                           (fun a b => a.1.key ≤ b.1.key)))) = some out := h2
          rw [series_dict_read_keys old obs hvold hv] at h3
          have h4 : some (write_csv ((((series_dict old obs).map
              (fun kv => (parseD kv.1, kv.2))).insertionSort
                (fun a b => a.1.key ≤ b.1.key)))) = some out := h3
          injection h4 with h5
          exact ⟨old, hvold, h5.symm⟩

theorem write_csv_filter_key (l : List (DT × ℚ)) (dt : DT)
    (hval : ∀ p ∈ l, p.1.validB = true) (hdtv : dt.validB = true) :
    (write_csv l).filter (fun row => decide (row.datetime_utc = isoZ dt)) =
      write_csv (l.filter (fun p => decide (p.1 = dt))) := by
  rw [write_csv, write_csv, List.filter_map]
  congr 1
  apply List.filter_congr
  intro p hp
  simp only [Function.comp]
  by_cases he : p.1 = dt
  · simp [he]
  · have hiso : isoZ p.1 ≠ isoZ dt := fun hiso => he (isoZ_inj p.1 dt (hval p hp) hdtv hiso)
    simp [hiso, he]

theorem write_merged_filter_key (existing : Option (List Row)) (obs : List (DT × ℚ))
    (dt : DT) (pv : DT × ℚ) (out : List Row)
    (hv : ∀ p ∈ obs, p.1.validB = true)
    (hlast : (obs.filter (fun p => decide (p.1 = dt))).getLast? = some pv)
    (hout : write_merged existing obs = some out) :
    out.filter (fun row => decide (row.datetime_utc = isoZ dt)) = write_csv [(dt, pv.2)] := by
  obtain ⟨old, hvold, rfl⟩ := write_merged_some_inv existing obs out hv hout
  have hpdt : pv ∈ obs ∧ pv.1 = dt := by
    have hm := List.mem_filter.mp (getLast?_mem_self hlast)
    exact ⟨hm.1, by simpa using hm.2⟩
  have hdtv : dt.validB = true := hpdt.2 ▸ hv pv hpdt.1
  have hspec := series_dict_pairs_spec old obs hvold hv
  have hndp := series_dict_parsed_nodup old obs hvold hv
  have hnds : ((((series_dict old obs).map (fun kv => (parseD kv.1, kv.2))).insertionSort
      (fun a b => a.1.key ≤ b.1.key)).map Prod.fst).Nodup :=
    (((List.perm_insertionSort _ _).map Prod.fst).nodup_iff).mpr hndp
  have hvs : ∀ p ∈ ((series_dict old obs).map (fun kv => (parseD kv.1, kv.2))).insertionSort
      (fun a b => a.1.key ≤ b.1.key), p.1.validB = true := by
    intro p hp
    have hp1 := (List.perm_insertionSort _ _).mem_iff.mp hp
    obtain ⟨kv, hkv, rfl⟩ := List.mem_map.mp hp1
    exact (hspec kv hkv).1
  have hkm : isoZ dt ∈ (series_dict old obs).map Prod.fst := by
    have hx := series_dict_key_mem old obs pv hpdt.1
    rw [hpdt.2] at hx
    exact hx
  have hgd : dictGetD (isoZ dt) (series_dict old obs) 0 = pv.2 :=
    series_dict_getD old obs dt pv 0 hv hdtv hlast
  have hmem0 : (isoZ dt, pv.2) ∈ series_dict old obs := by
    have hx := getD_mem (series_dict old obs) (isoZ dt) 0 hkm
    rw [hgd] at hx
    exact hx
  have hmem1 : (dt, pv.2) ∈ (series_dict old obs).map (fun kv => (parseD kv.1, kv.2)) := by
    have hx : ((fun kv : PyStr × ℚ => (parseD kv.1, kv.2)) (isoZ dt, pv.2)) = (dt, pv.2) := by
      dsimp only
      rw [parseD, fromisoformatZ_isoZ dt hdtv]
      rfl
    rw [← hx]
    exact List.mem_map_of_mem _ hmem0
  have hmem2 : (dt, pv.2) ∈ ((series_dict old obs).map
      (fun kv => (parseD kv.1, kv.2))).insertionSort (fun a b => a.1.key ≤ b.1.key) :=
    (List.perm_insertionSort _ _).mem_iff.mpr hmem1
  rw [write_csv_filter_key _ dt hvs hdtv, filter_pairs_singleton _ dt pv.2 hnds hmem2]

theorem write_merged_none_eq (obs : List (DT × ℚ)) (pairs : List (DT × ℚ))
    (hrk : read_keys (series_dict [] obs) = some pairs) :
    write_merged none obs =
      some (write_csv (pairs.insertionSort (fun a b => a.1.key ≤ b.1.key))) := by
  show (match read_keys (series_dict [] obs) with
        | none => none
        | some pairs =>
            some (write_csv (pairs.insertionSort (fun a b => a.1.key ≤ b.1.key)))) =
      some (write_csv (pairs.insertionSort (fun a b => a.1.key ≤ b.1.key)))
  rw [hrk]

theorem write_merged_none_single (dt : DT) (v : ℚ) (h : dt.validB = true) :
    write_merged none [(dt, v)] = some (write_csv [(dt, v)]) := by
  have hd : series_dict [] [(dt, v)] = [(isoZ dt, v)] := rfl
  have hrk : read_keys (series_dict [] [(dt, v)]) = some [(dt, v)] := by
    rw [hd, read_keys_cons, fromisoformatZ_isoZ dt h]
    rfl
  rw [write_merged_none_eq [(dt, v)] [(dt, v)] hrk]
  rfl

/-! ## Idempotence of the two mergers -/

theorem filterMap_eq_map_of_some {α β : Type} (f : α → Option β) (g : α → β) (l : List α)
    (h : ∀ a ∈ l, f a = some (g a)) : l.filterMap f = l.map g := by
  induction l with
  | nil => rfl
  | cons a rest ih =>
      rw [List.filterMap_cons_some (h a (List.mem_cons_self a rest)), List.map_cons,
        ih (fun a' ha' => h a' (List.mem_cons_of_mem _ ha'))]

theorem merge_rows_idem (S : List Row)
    (hnd : (S.map (fun r => r.datetime_utc)).Nodup)
    (hs : List.Sorted rowLe S) : merge_rows S S = S := by
  have hmapnd : ((S.map (fun r => (r.datetime_utc, r))).map Prod.fst).Nodup := by
    rw [List.map_map]
    exact hnd
  have hinit : pyDict (S.map (fun r => (r.datetime_utc, r))) =
      S.map (fun r => (r.datetime_utc, r)) := pyDict_eq_self _ hmapnd
  have hfold : S.foldl (fun m r => dictUpsert r.datetime_utc r m)
      (S.map (fun r => (r.datetime_utc, r))) = S.map (fun r => (r.datetime_utc, r)) :=
    foldl_upsert_overwrite (fun r : Row => r.datetime_utc) (fun r => r) (fun r => r) S hnd
  have hunfold : merge_rows S S = ((S.foldl (fun m r => dictUpsert r.datetime_utc r m)
      (pyDict (S.map (fun r => (r.datetime_utc, r))))).map Prod.snd).insertionSort rowLe := rfl
  rw [hunfold, hinit, hfold, List.map_map]
  have hcomp : (Prod.snd ∘ fun r : Row => (r.datetime_utc, r)) = fun r : Row => r := rfl
  rw [hcomp]
  have hid : S.map (fun r => r) = S := List.map_id' S
  rw [hid]
  exact hs.insertionSort_eq

theorem write_merged_idem (P : List (DT × ℚ))
    (hnd : (P.map Prod.fst).Nodup)
    (hsort : List.Sorted (fun a b : DT × ℚ => a.1.key ≤ b.1.key) P)
    (hv : ∀ p ∈ P, p.1.validB = true) :
    write_merged (some (write_csv P)) P = some (write_csv P) := by
  have hro : read_old (write_csv P) = some (P.map (fun p => (p.1, round1 p.2))) :=
    read_old_write_csv P hv
  have hndi : (P.map (fun p : DT × ℚ => isoZ p.1)).Nodup := by
    have heq : P.map (fun p : DT × ℚ => isoZ p.1) = (P.map Prod.fst).map isoZ := by
      rw [List.map_map]
      rfl
    rw [heq]
    apply List.Nodup.map_on ?_ hnd
    intro a ha b hb he
    obtain ⟨pa, hpa, rfl⟩ := List.mem_map.mp ha
    obtain ⟨pb, hpb, rfl⟩ := List.mem_map.mp hb
    exact isoZ_inj _ _ (hv pa hpa) (hv pb hpb) he
  have hinner : (P.map (fun p : DT × ℚ => (p.1, round1 p.2))).foldl
      (fun m p => dictUpsert (isoZ p.1) p.2 m) [] =
      P.map (fun p : DT × ℚ => (isoZ p.1, round1 p.2)) := by
    rw [List.foldl_map]
    exact foldl_upsertG_nil_eq_map (fun p : DT × ℚ => isoZ p.1) (fun p => round1 p.2) P hndi
  have hdict : series_dict (P.map (fun p : DT × ℚ => (p.1, round1 p.2))) P =
      P.map (fun p : DT × ℚ => (isoZ p.1, p.2)) := by
    rw [series_dict, hinner]
    exact foldl_upsert_overwrite (fun p : DT × ℚ => isoZ p.1) Prod.snd
      (fun p => round1 p.2) P hndi
  have hrk : read_keys (P.map (fun p : DT × ℚ => (isoZ p.1, p.2))) = some P := by
    rw [read_keys_map]
    · congr 1
      rw [List.map_map]
      have hpt : ∀ p ∈ P, ((fun kv : PyStr × ℚ => (parseD kv.1, kv.2)) ∘
          (fun p : DT × ℚ => (isoZ p.1, p.2))) p = p := by
        intro p hp
        dsimp only [Function.comp]
        rw [parseD, fromisoformatZ_isoZ _ (hv p hp)]
        rfl
      rw [List.map_congr_left hpt, List.map_id' P]
    · intro kv hkv
      obtain ⟨p, hp, rfl⟩ := List.mem_map.mp hkv
      dsimp only
      rw [fromisoformatZ_isoZ _ (hv p hp)]
      rfl
  show (match read_old (write_csv P) with
        | none => none
        | some old =>
            match read_keys (series_dict old P) with
            | none => none
            | some pairs =>
                some (write_csv (pairs.insertionSort (fun a b => a.1.key ≤ b.1.key)))) =
      some (write_csv P)
  rw [hro]
  show (match read_keys (series_dict (P.map (fun p : DT × ℚ => (p.1, round1 p.2))) P) with
        | none => none
        | some pairs =>
            some (write_csv (pairs.insertionSort (fun a b => a.1.key ≤ b.1.key)))) =
      some (write_csv P)
  rw [hdict, hrk]
  show some (write_csv (P.insertionSort (fun a b => a.1.key ≤ b.1.key))) =
      some (write_csv P)
  rw [hsort.insertionSort_eq]

/-! ## Sortedness and uniqueness of merge outputs -/

theorem write_merged_strict_sorted (existing : Option (List Row)) (obs : List (DT × ℚ))
    (out : List Row) (hv : ∀ p ∈ obs, p.1.validB = true)
    (hout : write_merged existing obs = some out) :
    List.Sorted pyLt (out.map (fun r => r.datetime_utc)) := by
  obtain ⟨old, hvold, rfl⟩ := write_merged_some_inv existing obs out hv hout
  have hspec := series_dict_pairs_spec old obs hvold hv
  have hndp := series_dict_parsed_nodup old obs hvold hv
  have hnds : ((((series_dict old obs).map (fun kv => (parseD kv.1, kv.2))).insertionSort
      (fun a b => a.1.key ≤ b.1.key)).map Prod.fst).Nodup :=
    (((List.perm_insertionSort _ _).map Prod.fst).nodup_iff).mpr hndp
  have hsort : List.Sorted (fun a b : DT × ℚ => a.1.key ≤ b.1.key)
      (((series_dict old obs).map (fun kv => (parseD kv.1, kv.2))).insertionSort
        (fun a b => a.1.key ≤ b.1.key)) := List.sorted_insertionSort _ _
  have hvs : ∀ p ∈ ((series_dict old obs).map (fun kv => (parseD kv.1, kv.2))).insertionSort
      (fun a b => a.1.key ≤ b.1.key), p.1.validB = true := by
    intro p hp
    have hp1 := (List.perm_insertionSort _ _).mem_iff.mp hp
    obtain ⟨kv, hkv, rfl⟩ := List.mem_map.mp hp1
    exact (hspec kv hkv).1
  have hne : (((series_dict old obs).map (fun kv => (parseD kv.1, kv.2))).insertionSort
      (fun a b => a.1.key ≤ b.1.key)).Pairwise (fun a b : DT × ℚ => a.1 ≠ b.1) :=
    List.pairwise_map.mp hnds
  have hstrict : (((series_dict old obs).map (fun kv => (parseD kv.1, kv.2))).insertionSort
      (fun a b => a.1.key ≤ b.1.key)).Pairwise
        (fun a b : DT × ℚ => pyLt (isoZ a.1) (isoZ b.1)) := by
    refine List.Pairwise.imp_of_mem ?_ (hsort.and hne)
    intro a b ha hb hab
    have hklt : a.1.key < b.1.key :=
      lt_of_le_of_ne hab.1 (fun hk => hab.2 (DT.key_inj a.1 b.1
        (validB_inRange a.1 (hvs a ha)) (validB_inRange b.1 (hvs b hb)) hk))
    exact isoZ_lex a.1 b.1 (hvs a ha) (hvs b hb) hklt
  rw [write_csv, List.map_map]
  exact List.pairwise_map.mpr hstrict

theorem merge_rows_key_perm (arch hourly : List Row) :
    ∃ ks : List PyStr, List.Perm ((merge_rows arch hourly).map (fun r => r.datetime_utc)) ks ∧
      ks.Nodup := by
  refine ⟨((hourly.foldl (fun m row => dictUpsert row.datetime_utc row m)
    (pyDict (arch.map (fun row => (row.datetime_utc, row))))).map Prod.fst), ?_, ?_⟩
  · have hperm := (List.perm_insertionSort rowLe
      ((hourly.foldl (fun m row => dictUpsert row.datetime_utc row m)
        (pyDict (arch.map (fun row => (row.datetime_utc, row))))).map Prod.snd)).map
          (fun r => r.datetime_utc)
    have heq : ((hourly.foldl (fun m row => dictUpsert row.datetime_utc row m)
        (pyDict (arch.map (fun row => (row.datetime_utc, row))))).map Prod.snd).map
          (fun r => r.datetime_utc) =
        (hourly.foldl (fun m row => dictUpsert row.datetime_utc row m)
          (pyDict (arch.map (fun row => (row.datetime_utc, row))))).map Prod.fst := by
      rw [List.map_map]
      apply List.map_congr_left
      intro kv hkv
      rcases mem_foldl_upsertG (fun row : Row => row.datetime_utc) (fun row => row) hourly _
          kv hkv with ⟨a, -, rfl⟩ | hkv2
      · rfl
      · obtain ⟨a, -, rfl⟩ := List.mem_map.mp (mem_pyDict _ _ hkv2)
        rfl
    rw [heq] at hperm
    exact hperm
  · exact foldl_upsertG_keys_nodup (fun row : Row => row.datetime_utc) (fun row => row)
      hourly _ (pyDict_keys_nodup _)

theorem merge_rows_nodup (arch hourly : List Row) :
    ((merge_rows arch hourly).map (fun r => r.datetime_utc)).Nodup := by
  obtain ⟨ks, hperm, hnd⟩ := merge_rows_key_perm arch hourly
  exact hperm.nodup_iff.mpr hnd

theorem merge_rows_strict_sorted (arch hourly : List Row) :
    List.Sorted pyLt ((merge_rows arch hourly).map (fun r => r.datetime_utc)) := by
  have hs : List.Sorted rowLe (merge_rows arch hourly) := List.sorted_insertionSort _ _
  have hle : List.Pairwise pyLe ((merge_rows arch hourly).map (fun r => r.datetime_utc)) :=
    List.pairwise_map.mpr hs
  have hnd := merge_rows_nodup arch hourly
  refine List.Pairwise.imp ?_ (hle.and hnd)
  rintro a b ⟨hab, hne⟩
  rcases hab with heq | hlt
  · exact absurd heq hne
  · exact hlt

/-- A row whose temperature cell does not convert yields no observation,
whatever the date column holds. -/
theorem parseRow_none_of_badtemp (idxF idxT : ℕ) (row : List PyStr)
    (hbad : _parse_float_celsius (row.getD idxT []) = none) :
    parseRow idxF idxT row = none := by
  rw [parseRow]
  split_ifs
  · rfl
  · dsimp only
    cases (strptimeDMYHM (_clean_text (row.getD idxF []))).orElse
        (fun _ => strptimeDMYHM (replaceDrop (_clean_text (row.getD idxF [])))) with
    | none => rfl
    | some dtl =>
        rw [parse_float_clean, hbad]

/-- A row whose date cell parses under neither format yields no
observation, whatever the temperature column holds. -/
theorem parseRow_none_of_baddate (idxF idxT : ℕ) (row : List PyStr)
    (h1 : strptimeDMYHM (_clean_text (row.getD idxF [])) = none)
    (h2 : strptimeDMYHM (replaceDrop (_clean_text (row.getD idxF []))) = none) :
    parseRow idxF idxT row = none := by
  rw [parseRow]
  split_ifs
  · rfl
  · dsimp only
    have horelse : (strptimeDMYHM (_clean_text (row.getD idxF []))).orElse
        (fun _ => strptimeDMYHM (replaceDrop (_clean_text (row.getD idxF [])))) = none := by
      rw [h1]
      simp only [Option.orElse]
      exact h2
    rw [horelse]

/-! ## Claim theorems -/

/-- C1, counterexample: the claim fails against both classifiers.  The
checked-in `_is_temp_header` has no exclusion check, so the label
`"Temp. max (°C)"`, whose normalised form contains the exclusion token
`max`, is classified as the temperature column and resolution succeeds on
a header set containing it.  The workflow variant's `is_temp_col` has no
Celsius-unit requirement: it accepts the normalised label
`"temperatura del aire"`, which references no Celsius unit at all. -/
theorem claim_C1_counterexample :
    _is_temp_header (str "Temp. max (°C)") = true ∧
    hasSub (str "max") (normHeader (str "Temp. max (°C)")) = true ∧
    findIdxTemp [str "Fecha y hora (oficial)", str "Temp. max (°C)"] = some 1 ∧
    is_temp_col (norm_ws (str "Temperatura del aire")) = true ∧
    hasCUnit (str "Temperatura del aire") = false ∧
    hasSub (str "ºc") (norm_ws (str "Temperatura del aire")) = false := by
  refine ⟨by decide, by decide, by decide, by decide, by decide, by decide⟩

/-- C1 (amended): the workflow classifier `is_temp_col` accepts a
normalised label exactly when it contains `temperatura` and no excluded
token (máx, max, mín, min, suelo, ts) — there is no Celsius-unit
requirement — so its exclusion does take precedence:
`"temperatura máx. (ºc)"` is rejected, and a header set whose only
temperature-like labels are tmáx/tmín variants resolves no temperature
column even through the conservative `ºc` fallback.  The checked-in
`_is_temp_header` requires a temperature word plus a Celsius reference
but has no exclusion check; on the same tmáx/tmín header set it still
fails (those labels contain no temperature word) and the parse errors
out. -/
theorem claim_C1_amended :
    (∀ h, is_temp_col h = true ↔
      (hasSub (str "temperatura") h = true ∧ ∀ t ∈ bad_tokens, hasSub t h = false)) ∧
    is_temp_col (norm_ws (str "Temperatura máx. (ºC)")) = false ∧
    is_temp_col (norm_ws (str "Temperatura (ºC)")) = true ∧
    find_temp_idx [str "Fecha y hora (oficial)", str "Tmáx (ºC)", str "Tmín (ºC)"] = none ∧
    findIdxTemp [str "Fecha y hora (oficial)", str "Tmáx (ºC)", str "Tmín (ºC)"] = none ∧
    parse_aemet_html_last24
      (some ⟨some [str "Fecha y hora (oficial)", str "Tmáx (ºC)", str "Tmín (ºC)"], []⟩) =
      .error .noTemp := by
  refine ⟨?_, by decide, by decide, by decide, by decide, by rfl⟩
  intro h
  constructor
  · intro hc
    rw [is_temp_col] at hc
    simp only [Bool.and_eq_true, Bool.not_eq_true', List.any_eq_false,
      decide_eq_true_eq] at hc
    exact ⟨hc.1, fun t ht => Bool.eq_false_iff.mpr (hc.2 t ht)⟩
  · intro hc
    rw [is_temp_col]
    simp only [Bool.and_eq_true, Bool.not_eq_true', List.any_eq_false,
      decide_eq_true_eq]
    exact ⟨hc.1, fun t ht => Bool.eq_false_iff.mp (hc.2 t ht)⟩

/-- C1, witness for the amended theorem at the canonical accepted label. -/
theorem claim_C1_witness :
    hasSub (str "temperatura") (norm_ws (str "Temperatura (ºC)")) = true ∧
    ∀ t ∈ bad_tokens, hasSub t (norm_ws (str "Temperatura (ºC)")) = false :=
  (claim_C1_amended.1 (norm_ws (str "Temperatura (ºC)"))).mp (by decide)

/-- C2, counterexample: the checked-in parser performs no hour alignment —
the cell `"05/03/2024 14:37"` yields the UTC instant 2024-03-05 13:37, a
nonzero minute. -/
theorem claim_C2_counterexample :
    (parseRow 0 1 [str "05/03/2024 14:37", str "12,3"]).map (fun p => p.1) =
      some ⟨2024, 3, 5, 13, 37, 0⟩ ∧
    (⟨2024, 3, 5, 13, 37, 0⟩ : DT).minute ≠ 0 := by
  exact ⟨by rfl, by decide⟩

/-- C2 (amended): hour alignment is the workflow variant's behaviour —
its `align_hour_utc` zeroes minute and second (and the sub-second
component, implicit in `DT`) before the Europe/Madrid→UTC conversion, and
on `05/03/2024 14:37` yields the UTC instant 2024-03-05T13:00:00Z; the
checked-in `scripts/` parser keeps the parsed minute (13:37 UTC for the
same cell). -/
theorem claim_C2_amended :
    (∀ d : DT, (align_hour_utc d).minute = 0 ∧ (align_hour_utc d).second = 0 ∧
      align_hour_utc d = astimezoneUTC { d with minute := 0, second := 0 }) ∧
    align_hour_utc ⟨2024, 3, 5, 14, 37, 0⟩ = ⟨2024, 3, 5, 13, 0, 0⟩ ∧
    (parseRow 0 1 [str "05/03/2024 14:37", str "12,3"]).map (fun p => p.1.minute) =
      some 37 := by
  refine ⟨?_, by decide, by rfl⟩
  intro d
  refine ⟨?_, ?_, rfl⟩
  · simp only [align_hour_utc, astimezoneUTC, madridOffsetLocal, DT.prevDay]
    split_ifs <;> simp <;> omega
  · simp only [align_hour_utc, astimezoneUTC, madridOffsetLocal, DT.prevDay]
    split_ifs <;> simp

/-- C3: both mergers key rows by exact UTC timestamp with last-write-wins:
the archive merger keeps exactly one row per colliding key, namely the
last hourly row with that key, and the Series Merger — whenever its run
completes — keeps exactly one row for a colliding instant, carrying the
last new observation's value; in the concrete 5.0/6.2 example only 6.2
survives. -/
theorem claim_C3 :
    (∀ (archRows hourlyRows : List Row) (k : PyStr) (r : Row),
      (hourlyRows.filter (fun row => decide (row.datetime_utc = k))).getLast? = some r →
      (merge_rows archRows hourlyRows).filter (fun row => decide (row.datetime_utc = k)) =
        [r]) ∧
    (∀ (existing : Option (List Row)) (obs : List (DT × ℚ)) (dt : DT) (pv : DT × ℚ)
        (out : List Row),
      (∀ p ∈ obs, p.1.validB = true) →
      (obs.filter (fun p => decide (p.1 = dt))).getLast? = some pv →
      write_merged existing obs = some out →
      out.filter (fun row => decide (row.datetime_utc = isoZ dt)) = write_csv [(dt, pv.2)]) ∧
    merge_rows
      [⟨str "2024-01-01", str "11:00", str "2024-01-01T10:00:00Z", str "5.0",
        str "AEMET_ult24h"⟩]
      [⟨str "2024-01-01", str "11:00", str "2024-01-01T10:00:00Z", str "6.2",
        str "AEMET_ult24h"⟩] =
      [⟨str "2024-01-01", str "11:00", str "2024-01-01T10:00:00Z", str "6.2",
        str "AEMET_ult24h"⟩] :=
  ⟨merge_rows_filter_key, write_merged_filter_key, by decide⟩

/-- C3, witness: the two last-write-wins parts applied at one-row inputs. -/
theorem claim_C3_witness :
    (merge_rows []
      [⟨str "2024-01-01", str "11:00", str "2024-01-01T10:00:00Z", str "6.2",
        str "AEMET_ult24h"⟩]).filter
      (fun row => decide (row.datetime_utc = str "2024-01-01T10:00:00Z")) =
      [⟨str "2024-01-01", str "11:00", str "2024-01-01T10:00:00Z", str "6.2",
        str "AEMET_ult24h"⟩] ∧
    (write_csv [(⟨2024, 1, 1, 10, 0, 0⟩, (6 : ℚ))]).filter
      (fun row => decide (row.datetime_utc = isoZ ⟨2024, 1, 1, 10, 0, 0⟩)) =
      write_csv [(⟨2024, 1, 1, 10, 0, 0⟩, ((⟨2024, 1, 1, 10, 0, 0⟩ : DT), (6 : ℚ)).2)] :=
  ⟨claim_C3.1 [] _ (str "2024-01-01T10:00:00Z") _ (by rfl),
   claim_C3.2.1 none [(⟨2024, 1, 1, 10, 0, 0⟩, (6 : ℚ))] ⟨2024, 1, 1, 10, 0, 0⟩
     (⟨2024, 1, 1, 10, 0, 0⟩, (6 : ℚ)) (write_csv [(⟨2024, 1, 1, 10, 0, 0⟩, (6 : ℚ))])
     (fun p hp => by rw [List.mem_singleton.mp hp]; decide) (by rfl)
     (write_merged_none_single ⟨2024, 1, 1, 10, 0, 0⟩ 6 (by decide))⟩

/-- C4: merging a series with itself is idempotent for both mergers: on a
sorted series with unique keys, the archive merge of S with S returns S,
and the Series Merger applied to a written series and the same
observations returns the same written series. -/
theorem claim_C4 :
    (∀ S : List Row, (S.map (fun r => r.datetime_utc)).Nodup → List.Sorted rowLe S →
      merge_rows S S = S) ∧
    (∀ P : List (DT × ℚ), (P.map Prod.fst).Nodup →
      List.Sorted (fun a b : DT × ℚ => a.1.key ≤ b.1.key) P →
      (∀ p ∈ P, p.1.validB = true) →
      write_merged (some (write_csv P)) P = some (write_csv P)) :=
  ⟨merge_rows_idem, write_merged_idem⟩

/-- C4, witness: both idempotence statements applied at two-row series. -/
theorem claim_C4_witness :
    merge_rows
      [⟨str "2024-01-01", str "11:00", str "2024-01-01T10:00:00Z", str "5.0",
        str "AEMET_ult24h"⟩,
       ⟨str "2024-01-01", str "12:00", str "2024-01-01T11:00:00Z", str "6.2",
        str "AEMET_ult24h"⟩]
      [⟨str "2024-01-01", str "11:00", str "2024-01-01T10:00:00Z", str "5.0",
        str "AEMET_ult24h"⟩,
       ⟨str "2024-01-01", str "12:00", str "2024-01-01T11:00:00Z", str "6.2",
        str "AEMET_ult24h"⟩] =
      [⟨str "2024-01-01", str "11:00", str "2024-01-01T10:00:00Z", str "5.0",
        str "AEMET_ult24h"⟩,
       ⟨str "2024-01-01", str "12:00", str "2024-01-01T11:00:00Z", str "6.2",
        str "AEMET_ult24h"⟩] ∧
    write_merged
        (some (write_csv [(⟨2024, 1, 1, 10, 0, 0⟩, (5 : ℚ)), (⟨2024, 1, 1, 11, 0, 0⟩, (6 : ℚ))]))
        [(⟨2024, 1, 1, 10, 0, 0⟩, (5 : ℚ)), (⟨2024, 1, 1, 11, 0, 0⟩, (6 : ℚ))] =
      some (write_csv [(⟨2024, 1, 1, 10, 0, 0⟩, (5 : ℚ)), (⟨2024, 1, 1, 11, 0, 0⟩, (6 : ℚ))]) :=
  ⟨claim_C4.1 _ (by decide) (by decide),
   claim_C4.2 [(⟨2024, 1, 1, 10, 0, 0⟩, (5 : ℚ)), (⟨2024, 1, 1, 11, 0, 0⟩, (6 : ℚ))]
     (by decide) (by decide)
     (fun p hp => by
       rcases List.mem_cons.mp hp with h1 | h1
       · rw [h1]; decide
       · rw [List.mem_singleton.mp h1]; decide)⟩

/-- C5: the write/read projection round-trips — formatting an observation
into a persisted row and re-parsing it back yields the same instant and
the value rounded to one decimal place, and that rounding is idempotent. -/
theorem claim_C5 (dt : DT) (v : ℚ) (h : dt.validB = true) :
    (write_csv [(dt, v)]).map (fun r => (fromisoformatZ r.datetime_utc, pyFloat r.temp_c)) =
      [(some dt, some (round1 v))] ∧ round1 (round1 v) = round1 v := by
  constructor
  · simp only [write_csv, List.map_cons, List.map_nil]
    rw [fromisoformatZ_isoZ dt h, pyFloat_fmt1]
  · exact round1_round1 v

/-- C5, witness at 2024-03-05T13:00:00Z and 12.3 °C. -/
theorem claim_C5_witness :
    (⟨2024, 3, 5, 13, 0, 0⟩ : DT).validB = true ∧
    ((write_csv [(⟨2024, 3, 5, 13, 0, 0⟩, (123 : ℚ) / 10)]).map
        (fun r => (fromisoformatZ r.datetime_utc, pyFloat r.temp_c)) =
      [(some ⟨2024, 3, 5, 13, 0, 0⟩, some (round1 ((123 : ℚ) / 10)))] ∧
      round1 (round1 ((123 : ℚ) / 10)) = round1 ((123 : ℚ) / 10)) :=
  ⟨by decide, claim_C5 ⟨2024, 3, 5, 13, 0, 0⟩ ((123 : ℚ) / 10) (by decide)⟩

/-- C6: every series the parser or a merger materialises is time-ascending
with unique keys: a successful parse is strictly ascending in the
timestamp with no duplicate instant, the Series Merger's and the archive
merger's outputs are strictly ascending in the `datetime_utc` key, and on
canonically formatted valid instants the string order coincides with the
instant order. -/
theorem claim_C6 :
    (∀ (html : Html) (pairs : List (DT × ℚ)), parse_aemet_html_last24 html = .ok pairs →
      (pairs.map Prod.fst).Nodup ∧ List.Sorted (· < ·) (pairs.map (fun p => p.1.key))) ∧
    (∀ (existing : Option (List Row)) (obs : List (DT × ℚ)) (out : List Row),
      (∀ p ∈ obs, p.1.validB = true) → write_merged existing obs = some out →
      List.Sorted pyLt (out.map (fun r => r.datetime_utc))) ∧
    (∀ arch hourly : List Row,
      List.Sorted pyLt ((merge_rows arch hourly).map (fun r => r.datetime_utc))) ∧
    (∀ a b : DT, a.validB = true → b.validB = true →
      (pyLt (isoZ a) (isoZ b) ↔ a.key < b.key)) :=
  ⟨parse_ok_struct, write_merged_strict_sorted, merge_rows_strict_sorted, isoZ_lt_iff⟩

/-- C6, witness: all four parts applied at concrete inputs. -/
theorem claim_C6_witness :
    ((([(⟨2024, 3, 5, 13, 0, 0⟩, ((12 : ℕ) : ℚ))] : List (DT × ℚ)).map Prod.fst).Nodup ∧
      List.Sorted (· < ·)
        (([(⟨2024, 3, 5, 13, 0, 0⟩, ((12 : ℕ) : ℚ))] : List (DT × ℚ)).map
          (fun p => p.1.key))) ∧
    List.Sorted pyLt ((write_csv [(⟨2024, 1, 1, 10, 0, 0⟩, (5 : ℚ))]).map
      (fun r => r.datetime_utc)) ∧
    (pyLt (isoZ ⟨2024, 1, 1, 10, 0, 0⟩) (isoZ ⟨2024, 1, 1, 11, 0, 0⟩) ↔
      (⟨2024, 1, 1, 10, 0, 0⟩ : DT).key < (⟨2024, 1, 1, 11, 0, 0⟩ : DT).key) :=
  ⟨claim_C6.1 (some ⟨some [str "Fecha y hora (oficial)", str "Temperatura (ºC)"],
      [[str "05/03/2024 14:00", str "12"]]⟩) [(⟨2024, 3, 5, 13, 0, 0⟩, ((12 : ℕ) : ℚ))]
      (by rfl),
   claim_C6.2.1 none [(⟨2024, 1, 1, 10, 0, 0⟩, (5 : ℚ))]
     (write_csv [(⟨2024, 1, 1, 10, 0, 0⟩, (5 : ℚ))])
     (fun p hp => by rw [List.mem_singleton.mp hp]; decide)
     (write_merged_none_single ⟨2024, 1, 1, 10, 0, 0⟩ 5 (by decide)),
   claim_C6.2.2.2 ⟨2024, 1, 1, 10, 0, 0⟩ ⟨2024, 1, 1, 11, 0, 0⟩ (by decide) (by decide)⟩

/-- C7: a row whose temperature cell fails numeric conversion yields no
observation and is dropped locally — the parse of the table with the row
equals the parse without it — and the no-data sentinels "-", "ND" and the
empty string are rejected by both temperature converters
(`_parse_float_celsius` rejects them explicitly; the workflow variant's
`to_float` rejects them because `float(...)` raises on each). -/
theorem claim_C7 (ths : List PyStr) (rows1 rows2 : List (List PyStr))
    (row : List PyStr) (idxT : ℕ)
    (ht : findIdxTemp (ths.map _clean_text) = some idxT)
    (hbad : _parse_float_celsius (row.getD idxT []) = none) :
    (∀ idxF, parseRow idxF idxT row = none) ∧
    parse_aemet_html_last24 (some ⟨some ths, rows1 ++ row :: rows2⟩) =
      parse_aemet_html_last24 (some ⟨some ths, rows1 ++ rows2⟩) ∧
    to_float (str "ND") = none ∧ to_float (str "-") = none ∧ to_float [] = none ∧
    _parse_float_celsius (str "ND") = none ∧ _parse_float_celsius (str "-") = none ∧
    _parse_float_celsius [] = none := by
  refine ⟨fun idxF => parseRow_none_of_badtemp idxF idxT row hbad, ?_,
    by decide, by decide, by decide, by decide, by decide, by decide⟩
  exact parse_drop_bad_row ths rows1 rows2 row (fun idxF idxT' hf ht' => by
    rw [ht] at ht'
    injection ht' with he
    rw [← he]
    exact parseRow_none_of_badtemp idxF idxT row hbad)

/-- C7, witness: an "ND" temperature cell in a two-column table. -/
theorem claim_C7_witness :
    parseRow 0 1 [str "05/03/2024 14:00", str "ND"] = none ∧
    parse_aemet_html_last24 (some ⟨some [str "Fecha y hora (oficial)",
        str "Temperatura (ºC)"], [[str "05/03/2024 14:00", str "ND"]]⟩) =
      parse_aemet_html_last24 (some ⟨some [str "Fecha y hora (oficial)",
        str "Temperatura (ºC)"], []⟩) :=
  ⟨(claim_C7 [str "Fecha y hora (oficial)", str "Temperatura (ºC)"] [] []
      [str "05/03/2024 14:00", str "ND"] 1 (by decide) (by decide)).1 0,
   (claim_C7 [str "Fecha y hora (oficial)", str "Temperatura (ºC)"] [] []
      [str "05/03/2024 14:00", str "ND"] 1 (by decide) (by decide)).2.1⟩

/-- C8: the header "Temperatura (ºC)" is classified as the temperature
column (also positionally, next to the date header), and the cell "12,3"
normalises to exactly 12.3 after the decimal comma is replaced. -/
theorem claim_C8 :
    _is_temp_header (str "Temperatura (ºC)") = true ∧
    findIdxTemp [str "Fecha y hora (oficial)", str "Temperatura (ºC)"] = some 1 ∧
    _parse_float_celsius (str "12,3") = some ((123 : ℚ) / 10) := by
  refine ⟨by decide, by decide, ?_⟩
  have h : _parse_float_celsius (str "12,3") =
      some (((12 : ℕ) : ℚ) + ((3 : ℕ) : ℚ) / (10 : ℚ) ^ (1 : ℕ)) := rfl
  rw [h]
  simp only [Option.some.injEq]
  norm_num

/-- C9: transport errors, parse errors and an empty extraction all abort
the fetch run with exit code 2 and no file written; a successful
non-empty extraction exits 0 writing exactly the formatted series; and a
row whose temperature cell fails conversion, or whose date cell parses
under neither accepted format, changes nothing but that row — the whole
run's outcome is that of the same table without it. -/
theorem claim_C9 :
    (∀ e : Unit, fetch_main (.error e) = ⟨2, none⟩) ∧
    (∀ (html : Html) (err : ParseErr), parse_aemet_html_last24 html = .error err →
      fetch_main (.ok html) = ⟨2, none⟩) ∧
    (∀ html : Html, parse_aemet_html_last24 html = .ok [] →
      fetch_main (.ok html) = ⟨2, none⟩) ∧
    (∀ (html : Html) (pairs : List (DT × ℚ)), parse_aemet_html_last24 html = .ok pairs →
      pairs ≠ [] → fetch_main (.ok html) = ⟨0, some (write_csv pairs)⟩) ∧
    (∀ (ths : List PyStr) (rows1 rows2 : List (List PyStr)) (row : List PyStr) (idxT : ℕ),
      findIdxTemp (ths.map _clean_text) = some idxT →
      _parse_float_celsius (row.getD idxT []) = none →
      fetch_main (.ok (some ⟨some ths, rows1 ++ row :: rows2⟩)) =
        fetch_main (.ok (some ⟨some ths, rows1 ++ rows2⟩))) ∧
    (∀ (ths : List PyStr) (rows1 rows2 : List (List PyStr)) (row : List PyStr) (idxF : ℕ),
      findIdxFecha (ths.map _clean_text) = some idxF →
      strptimeDMYHM (_clean_text (row.getD idxF [])) = none →
      strptimeDMYHM (replaceDrop (_clean_text (row.getD idxF []))) = none →
      fetch_main (.ok (some ⟨some ths, rows1 ++ row :: rows2⟩)) =
        fetch_main (.ok (some ⟨some ths, rows1 ++ rows2⟩))) := by
  refine ⟨fun e => rfl, ?_, ?_, ?_, ?_, ?_⟩
  · intro html err h
    simp [fetch_main, h]
  · intro html h
    simp [fetch_main, h]
  · intro html pairs h hne
    simp [fetch_main, h, hne]
  · intro ths rows1 rows2 row idxT ht hbad
    have hdrop : parse_aemet_html_last24 (some ⟨some ths, rows1 ++ row :: rows2⟩) =
        parse_aemet_html_last24 (some ⟨some ths, rows1 ++ rows2⟩) :=
      parse_drop_bad_row ths rows1 rows2 row (fun idxF idxT' hf ht' => by
        rw [ht] at ht'
        injection ht' with he
        rw [← he]
        exact parseRow_none_of_badtemp idxF idxT row hbad)
    simp only [fetch_main]
    rw [hdrop]
  · intro ths rows1 rows2 row idxF hf hd1 hd2
    have hdrop : parse_aemet_html_last24 (some ⟨some ths, rows1 ++ row :: rows2⟩) =
        parse_aemet_html_last24 (some ⟨some ths, rows1 ++ rows2⟩) :=
      parse_drop_bad_row ths rows1 rows2 row (fun idxF' idxT' hf' ht' => by
        rw [hf] at hf'
        injection hf' with he
        rw [← he]
        exact parseRow_none_of_baddate idxF idxT' row hd1 hd2)
    simp only [fetch_main]
    rw [hdrop]

/-- C9, witness: each outcome of the fetch run at a concrete input. -/
theorem claim_C9_witness :
    fetch_main (.error ()) = ⟨2, none⟩ ∧
    fetch_main (.ok none) = ⟨2, none⟩ ∧
    fetch_main (.ok (some ⟨some [str "Fecha y hora (oficial)",
        str "Temperatura (ºC)"], []⟩)) = ⟨2, none⟩ ∧
    fetch_main (.ok (some ⟨some [str "Fecha y hora (oficial)", str "Temperatura (ºC)"],
        [[str "05/03/2024 14:00", str "12"]]⟩)) =
      ⟨0, some (write_csv [(⟨2024, 3, 5, 13, 0, 0⟩, ((12 : ℕ) : ℚ))])⟩ ∧
    fetch_main (.ok (some ⟨some [str "Fecha y hora (oficial)", str "Temperatura (ºC)"],
        [[str "05/03/2024 14:00", str "ND"]]⟩)) =
      fetch_main (.ok (some ⟨some [str "Fecha y hora (oficial)",
        str "Temperatura (ºC)"], []⟩)) ∧
    fetch_main (.ok (some ⟨some [str "Fecha y hora (oficial)", str "Temperatura (ºC)"],
        [[str "mal formato", str "12"]]⟩)) =
      fetch_main (.ok (some ⟨some [str "Fecha y hora (oficial)",
        str "Temperatura (ºC)"], []⟩)) :=
  ⟨claim_C9.1 (),
   claim_C9.2.1 none .noTable (by rfl),
   claim_C9.2.2.1 _ (by rfl),
   claim_C9.2.2.2.1 _ [(⟨2024, 3, 5, 13, 0, 0⟩, ((12 : ℕ) : ℚ))] (by rfl)
     (List.cons_ne_nil _ _),
   claim_C9.2.2.2.2.1 [str "Fecha y hora (oficial)", str "Temperatura (ºC)"] [] []
     [str "05/03/2024 14:00", str "ND"] 1 (by decide) (by decide),
   claim_C9.2.2.2.2.2 [str "Fecha y hora (oficial)", str "Temperatura (ºC)"] [] []
     [str "mal formato", str "12"] 0 (by decide) (by decide) (by decide)⟩

/-- C10: when the hourly file is absent or holds no data rows, the archive
updater writes nothing, prints the warning, and exits 0. -/
theorem claim_C10 :
    (∀ archiveFile : Option (List Row), archive_main none archiveFile = ⟨none, true, 0⟩) ∧
    (∀ archiveFile : Option (List Row),
      archive_main (some []) archiveFile = ⟨none, true, 0⟩) :=
  ⟨fun _ => rfl, fun _ => rfl⟩

example : _is_temp_header (str "Temperatura (ºC)") = true := by decide
example : _is_temp_header (str "Temp. (°C)") = true := by decide
example : _is_temp_header (str "Tmáx (ºC)") = false := by decide
example : _is_temp_header (str "Humedad (%)") = false := by decide
example : _is_temp_header (str "Temp. max (°C)") = true := by decide
example : _parse_float_celsius (str "12,3") = some (123 / 10) := by
  have h : _parse_float_celsius (str "12,3") =
      some (((12 : ℕ) : ℚ) + ((3 : ℕ) : ℚ) / (10 : ℚ) ^ (1 : ℕ)) := rfl
  rw [h]
  simp only [Option.some.injEq]
  norm_num
example : _parse_float_celsius (str "ND") = none := by decide
example : _parse_float_celsius (str "-") = none := by decide
example : _parse_float_celsius (str "  -3,5 ") = some (-7 / 2) := by
  have h : _parse_float_celsius (str "  -3,5 ") =
      some (-(((3 : ℕ) : ℚ) + ((5 : ℕ) : ℚ) / (10 : ℚ) ^ (1 : ℕ))) := rfl
  rw [h]
  simp only [Option.some.injEq]
  norm_num
example : _parse_float_celsius (str "n/a") = none := by decide
example : strptimeDMYHM (str "05/03/2024 14:37") = some ⟨2024, 3, 5, 14, 37, 0⟩ := by decide
example : strptimeDMYHM (str "5/3/2024 14:37") = some ⟨2024, 3, 5, 14, 37, 0⟩ := by decide
example : strptimeDMYHM (str "31/02/2024 14:37") = none := by decide
example : strptimeDMYHM (str "05/03/2024 14:37 h") = none := by decide
example : strptimeDMYHM (replaceDrop (str "05/03/2024 14:37 h")) =
    some ⟨2024, 3, 5, 14, 37, 0⟩ := by decide
example : lastSunday 2024 3 = 31 ∧ lastSunday 2024 10 = 27 ∧
    lastSunday 2025 3 = 30 ∧ lastSunday 2025 10 = 26 := by decide
example : astimezoneUTC ⟨2024, 3, 5, 14, 37, 0⟩ = ⟨2024, 3, 5, 13, 37, 0⟩ := by decide
example : astimezoneUTC ⟨2024, 7, 10, 1, 30, 0⟩ = ⟨2024, 7, 9, 23, 30, 0⟩ := by decide
example : astimezoneUTC ⟨2024, 1, 1, 0, 30, 0⟩ = ⟨2023, 12, 31, 23, 30, 0⟩ := by decide
example : astimezoneMadrid ⟨2024, 3, 5, 13, 0, 0⟩ = ⟨2024, 3, 5, 14, 0, 0⟩ := by decide
example : astimezoneMadrid ⟨2024, 7, 9, 23, 30, 0⟩ = ⟨2024, 7, 10, 1, 30, 0⟩ := by decide
example : isoZ ⟨2024, 3, 5, 13, 0, 0⟩ = str "2024-03-05T13:00:00Z" := by decide
example : fromisoformatZ (str "2024-03-05T13:00:00Z") = some ⟨2024, 3, 5, 13, 0, 0⟩ := by decide
example : align_hour_utc ⟨2024, 3, 5, 14, 37, 0⟩ = ⟨2024, 3, 5, 13, 0, 0⟩ := by decide

end Aemet
